import Mathlib

/-!
# Event reconciliation of `internal/user/events.go`

A shallow embedding of the event handlers of the bridge's `User` type
(`handleAPIEvent` and the user / address / label / message handlers it
dispatches to), followed by theorems about them.

Modelling conventions

* A Go `map[string]V` is an association list with unique keys (`GoMap V`).
  `range` over a map visits the entries of that list.
* A `*queue.QueuedChannel` is a pointer: `none` is the nil pointer and
  `some h` refers to cell `h` of the heap `User.queues`.  Dereferencing nil
  (or a cell that was never allocated) is a run-time panic.
* A handler mutates the receiver in place, so every handler maps the state
  before the call to a `Result`: the state left behind together with the
  returned error, if any.
* Locks, logging and contexts have no effect on the sequential behaviour and
  are left out.
-/

namespace bridge

/-! ## Go maps -/

/-- A Go map with string keys: every key occurs at most once. -/
abbrev GoMap (V : Type) := AList (fun _ : String => V)

instance GoMap.instDecEq {V : Type} [DecidableEq V] : DecidableEq (GoMap V) :=
  fun a b => decidable_of_iff (a.entries = b.entries) AList.ext_iff.symm

/-- The Go expression `m[k]`: the stored value, or the zero value of `V`. -/
def GoMap.index {V : Type} (m : GoMap V) (k : String) (zero : V) : V :=
  (m.lookup k).getD zero

/-- The values of a map, in iteration order. -/
def GoMap.values {V : Type} (m : GoMap V) : List V :=
  m.entries.map Sigma.snd

/-! ## Errors -/

/-- Go error values, as built in this file. -/
inductive Error where
  /-- The call `fmt.Errorf(format, arg)` with a single `%q` verb. -/
  | errorf (format : String) (arg : String)
  /-- The call `fmt.Errorf(msg + ": %w", cause)`. -/
  | wrap (msg : String) (cause : Error)
  /-- An error value handed back by a collaborator (remote client, key store). -/
  | external (detail : String)
deriving DecidableEq, Repr

/-- The innermost error of a chain of `%w` wrappers. -/
def Error.root : Error → Error
  | .wrap _ cause => cause.root
  | e => e

/-! ## Remote API types (`liteapi`) -/

namespace liteapi

/-- The type `liteapi.User`. -/
structure User where
  ID : String
  Name : String
  Keys : String
deriving DecidableEq, Repr

/-- The type `liteapi.Address`; `Order` is the ordering position. -/
structure Address where
  ID : String
  Email : String
  Enabled : Bool
  Order : Int
  Keys : String
deriving DecidableEq, Repr

/-- The zero value of `liteapi.Address`. -/
def Address.zero : Address := ⟨"", "", false, 0, ""⟩

/-- The type `liteapi.LabelType` is a Go `int`. -/
abbrev LabelType := Int

def LabelTypeLabel : LabelType := 1
def LabelTypeContactGroup : LabelType := 2
def LabelTypeFolder : LabelType := 3
def LabelTypeSystem : LabelType := 4

/-- The type `liteapi.Label`; `Type_` is its field `Type`. -/
structure Label where
  ID : String
  Name : String
  Path : List String
  Type_ : LabelType
deriving DecidableEq, Repr

/-- The type `liteapi.MessageMetadata`; `Seen` and `Starred` are the values of
the methods of the same name. -/
structure MessageMetadata where
  ID : String
  AddressID : String
  LabelIDs : List String
  Subject : String
  Seen : Bool
  Starred : Bool
deriving DecidableEq, Repr

/-- The type `liteapi.FullMessage`, as returned by `GetFullMessage`. -/
structure FullMessage where
  ID : String
  AddressID : String
  Body : String
deriving DecidableEq, Repr

/-- The type `liteapi.EventAction`. -/
inductive EventAction where
  | EventDelete
  | EventCreate
  | EventUpdate
  | EventUpdateFlags
deriving DecidableEq, Repr

/-- The type `liteapi.AddressEvent`: an event item (`ID`, `Action`) and the address. -/
structure AddressEvent where
  ID : String
  Action : EventAction
  Address : Address
deriving DecidableEq, Repr

/-- The type `liteapi.LabelEvent`. -/
structure LabelEvent where
  ID : String
  Action : EventAction
  Label : Label
deriving DecidableEq, Repr

/-- The type `liteapi.MessageEvent`. -/
structure MessageEvent where
  ID : String
  Action : EventAction
  Message : MessageMetadata
deriving DecidableEq, Repr

/-- The type `liteapi.Event`: one batch; `User` is a nullable pointer. -/
structure Event where
  User : Option User
  Addresses : List AddressEvent
  Labels : List LabelEvent
  Messages : List MessageEvent
deriving DecidableEq, Repr

end liteapi

/-! ## Protocol updates (`imap`) and notifications (`events`) -/

namespace imap

/-- The `imap.Update` records pushed into the per-address queues. -/
inductive Update where
  | MailboxCreated (id : String) (name : List String)
  | MailboxUpdated (id : String) (name : List String)
  | MailboxDeleted (id : String)
  | MessagesCreated (built : String)
  | MessageMailboxesUpdated (id : String) (mailboxIDs : List String) (seen starred : Bool)
  | MessagesDeleted (id : String)
deriving DecidableEq, Repr

end imap

namespace events

/-- The notifications pushed into `user.eventCh`. -/
inductive Event where
  | UserChanged (UserID : String)
  | UserAddressCreated (UserID AddressID Email : String)
  | UserAddressUpdated (UserID AddressID Email : String)
  | UserAddressDeleted (UserID AddressID Email : String)
  | UserLabelCreated (UserID LabelID Name : String)
  | UserLabelUpdated (UserID LabelID Name : String)
  | UserLabelDeleted (UserID LabelID Name : String)
deriving DecidableEq, Repr

end events

/-! ## Queues (`gluon/queue`) -/

namespace queue

/-- A `queue.QueuedChannel[imap.Update]`: the updates enqueued and not discarded,
oldest first, and the closed flag.  Consumption by the protocol server is not
part of the handlers and is not modelled. -/
structure QueuedChannel where
  items : List imap.Update
  closed : Bool
deriving DecidableEq, Repr

/-- The constructor `queue.NewQueuedChannel`: empty and open. -/
def NewQueuedChannel : QueuedChannel := ⟨[], false⟩

/-- The method `Enqueue`: appends at the tail; a closed queue drops the item. -/
def QueuedChannel.Enqueue (q : QueuedChannel) (x : imap.Update) : QueuedChannel :=
  if q.closed then q else { q with items := q.items ++ [x] }

/-- The method `CloseAndDiscardQueued`. -/
def QueuedChannel.CloseAndDiscardQueued (_q : QueuedChannel) : QueuedChannel :=
  ⟨[], true⟩

end queue

open queue (QueuedChannel NewQueuedChannel)

/-- A `*queue.QueuedChannel`: `none` is nil, `some h` is heap cell `h`. -/
abbrev Ptr := Option Nat

/-- The call `p.Enqueue(x)` through a pointer; `none` is a nil-dereference panic. -/
def Enqueue (qs : List QueuedChannel) (p : Ptr) (x : imap.Update) :
    Option (List QueuedChannel) :=
  match p with
  | none => none
  | some h =>
    match qs[h]? with
    | none => none
    | some q => some (qs.set h (q.Enqueue x))

/-- The call `p.CloseAndDiscardQueued()` through a pointer. -/
def CloseAndDiscardQueued (qs : List QueuedChannel) (p : Ptr) :
    Option (List QueuedChannel) :=
  match p with
  | none => none
  | some h =>
    match qs[h]? with
    | none => none
    | some q => some (qs.set h q.CloseAndDiscardQueued)

/-- The loop `for _, updateCh := range chans`, whose body is `updateCh.Enqueue(x)`. -/
def rangeEnqueue (x : imap.Update) : List QueuedChannel → List Ptr → Option (List QueuedChannel)
  | qs, [] => some qs
  | qs, p :: ps =>
    match Enqueue qs p x with
    | none => none
    | some qs1 => rangeEnqueue x qs1 ps

/-- Enqueues the given updates, one after the other, through one pointer. -/
def enqueueAll (p : Ptr) : List QueuedChannel → List imap.Update → Option (List QueuedChannel)
  | qs, [] => some qs
  | qs, x :: xs =>
    match Enqueue qs p x with
    | none => none
    | some qs1 => enqueueAll p qs1 xs

/-! ## The user state -/

namespace vault

/-- The type `vault.AddressMode`. -/
inductive AddressMode where
  | CombinedMode
  | SplitMode
deriving DecidableEq, Repr

end vault

/-- The part of the vault the handlers read. -/
structure Vault where
  AddressMode : vault.AddressMode
  KeyPass : String
deriving DecidableEq, Repr

/-- The fields of `User` the event handlers touch.  `queues` is the heap the
pointers of `updateCh` refer to; `remoteCalls` counts the remote client calls
made so far and selects the client's next answer. -/
structure User where
  vault : Vault
  apiUser : liteapi.User
  apiAddrs : GoMap liteapi.Address
  apiLabels : GoMap liteapi.Label
  updateCh : GoMap Ptr
  eventCh : List events.Event
  queues : List QueuedChannel
  remoteCalls : Nat
deriving DecidableEq

/-- Outcome of a handler call on the state it mutated. -/
inductive Result where
  /-- Returned `nil`. -/
  | ok (user : User)
  /-- Returned a non-nil error, leaving the state `user` behind. -/
  | err (e : Error) (user : User)
  /-- Dereferenced a nil queue pointer. -/
  | panic
deriving DecidableEq

/-- The idiom `if err != nil`, then `return fmt.Errorf(msg + ": %w", err)`. -/
def Result.wrapErr (msg : String) : Result → Result
  | .err e user => .err (.wrap msg e) user
  | r => r

/-- Sequencing: continue only after a `nil` return. -/
def Result.andThen (r : Result) (k : User → Result) : Result :=
  match r with
  | .ok user => k user
  | r => r

/-- The collaborators the handlers call and whose code is not part of this unit.
Remote answers may change from call to call, so they take the call number. -/
structure Env where
  /-- The method `user.ID()`. -/
  ID : User → String
  /-- The call `user.client.GetFullMessage(ctx, id)`. -/
  GetFullMessage : Nat → String → Except Error liteapi.FullMessage
  /-- The remote label snapshot fetched by `syncLabels`. -/
  GetLabels : Nat → Except Error (List liteapi.Label)
  /-- Keyring construction from user profile, address and passphrase. -/
  unlock : liteapi.User → liteapi.Address → String → Except Error String
  /-- The function `buildRFC822`, returning the built message update. -/
  buildRFC822 : liteapi.FullMessage → String → Except Error String
  /-- The predicate `wantLabelID`: does the label identifier name a known mailbox. -/
  wantLabelID : String → Bool

/-! ## Helpers of the package that the handlers call -/

/-- Modelled from the spec: the constant `folderPrefix`, the prefix segment of
folder mailboxes, is "Folders". -/
def folderPrefix : String := "Folders"

/-- Modelled from the spec: the constant `labelPrefix`, the prefix segment of
label mailboxes, is "Labels". -/
def labelPrefix : String := "Labels"

/-- Modelled from the spec: `newMailboxCreatedUpdate` builds the mailbox-created
update `MailboxCreated` with the given identifier and name. -/
def newMailboxCreatedUpdate (labelID : String) (labelName : List String) : imap.Update :=
  .MailboxCreated labelID labelName

/-- Modelled from the spec: `getAddrIdx` locates an address by ordering
position; index 0 is the primary address, the one with the lowest ordering
position.  The addresses of the table are ordered by `Order` and the one at
`idx` is returned; an index outside the table is an error. -/
def getAddrIdx (apiAddrs : GoMap liteapi.Address) (idx : Int) : Except Error liteapi.Address :=
  let sorted := apiAddrs.values.insertionSort (fun a b => a.Order ≤ b.Order)
  if idx < 0 then .error (.external "address index out of range")
  else
    match sorted[idx.toNat]? with
    | none => .error (.external "address index out of range")
    | some addr => .ok addr

/-- The function `getMailboxName`. -/
def getMailboxName (label : liteapi.Label) : List String :=
  if label.Type_ = liteapi.LabelTypeFolder then
    [ folderPrefix] ++ label.Path
  else if label.Type_ = liteapi.LabelTypeLabel then
    [ labelPrefix] ++ label.Path
  else
    label.Path

/-- Modelled from the spec: `syncLabels`, the one-time label bootstrap, fetches
the current remote label set and pushes the equivalent mailbox-created updates
into the given queue; a failed fetch is returned as the error. -/
def syncLabels (env : Env) (user : User) (updateCh : Ptr) : Result :=
  let answer := env.GetLabels user.remoteCalls
  let user := { user with remoteCalls := user.remoteCalls + 1 }
  match answer with
  | .error err => .err err user
  | .ok labels =>
    match enqueueAll updateCh user.queues
        (labels.map fun label => newMailboxCreatedUpdate label.ID (getMailboxName label)) with
    | none => .panic
    | some qs => .ok { user with queues := qs }

/-- Modelled from the spec: `withAddrKR` constructs the address keyring from the
user profile, the address and the passphrase, and runs `fn` with it; a failed
construction is returned as the error and `fn` is not run. -/
def withAddrKR (env : Env) (user : User) (apiUser : liteapi.User) (apiAddr : liteapi.Address)
    (keyPass : String) (fn : String → Result) : Result :=
  match env.unlock apiUser apiAddr keyPass with
  | .error err => .err err user
  | .ok addrKR => fn addrKR

/-! ## The handlers of `events.go` -/

/-- The method `handleUserEvent`. -/
def handleUserEvent (env : Env) (user : User) (userEvent : liteapi.User) : Result :=
  let user := { user with apiUser := userEvent }
  let user := { user with eventCh := user.eventCh ++ [.UserChanged (env.ID user)] }
  .ok user

/-- The method `handleCreateAddressEvent`. -/
def handleCreateAddressEvent (env : Env) (user : User) (event : liteapi.AddressEvent) : Result :=
  -- the first closure, under the address-table and registry locks
  let locked : Result :=
    if (user.apiAddrs.lookup event.Address.ID).isSome then
      .err (.errorf "address %q already exists" event.ID) user
    else
      let user := { user with apiAddrs := user.apiAddrs.insert event.Address.ID event.Address }
      match user.vault.AddressMode with
      | .CombinedMode =>
        match getAddrIdx user.apiAddrs 0 with
        | .error err => .err (.wrap "failed to get primary address" err) user
        | .ok primAddr =>
          .ok { user with
            updateCh := user.updateCh.insert event.Address.ID (user.updateCh.index primAddr.ID none) }
      | .SplitMode =>
        .ok { user with
          updateCh := user.updateCh.insert event.Address.ID (some user.queues.length)
          queues := user.queues ++ [NewQueuedChannel] }
  (locked.wrapErr "failed to handle create address event").andThen fun user =>
    let user := { user with
      eventCh := user.eventCh ++
        [.UserAddressCreated (env.ID user) event.Address.ID event.Address.Email] }
    -- the second closure, under the shared locks
    if user.vault.AddressMode = .SplitMode then
      (syncLabels env user (user.updateCh.index event.Address.ID none)).wrapErr
        "failed to sync labels to new address"
    else
      .ok user

/-- The method `handleUpdateAddressEvent`. -/
def handleUpdateAddressEvent (env : Env) (user : User) (event : liteapi.AddressEvent) : Result :=
  if ¬ (user.apiAddrs.lookup event.Address.ID).isSome then
    .err (.errorf "address %q does not exist" event.Address.ID) user
  else
    let user := { user with apiAddrs := user.apiAddrs.insert event.Address.ID event.Address }
    let user := { user with
      eventCh := user.eventCh ++
        [.UserAddressUpdated (env.ID user) event.Address.ID event.Address.Email] }
    .ok user

/-- The method `handleDeleteAddressEvent`. -/
def handleDeleteAddressEvent (env : Env) (user : User) (event : liteapi.AddressEvent) : Result :=
  match user.apiAddrs.lookup event.ID with
  | none => .err (.errorf "address %q does not exist" event.ID) user
  | some addr =>
    let closed : Option User :=
      if user.vault.AddressMode = .SplitMode then
        match CloseAndDiscardQueued user.queues (user.updateCh.index event.ID none) with
        | none => none
        | some qs => some { user with queues := qs, updateCh := user.updateCh.erase event.ID }
      else
        some user
    match closed with
    | none => .panic
    | some user =>
      let user := { user with apiAddrs := user.apiAddrs.erase event.ID }
      let user := { user with
        eventCh := user.eventCh ++ [.UserAddressDeleted (env.ID user) event.ID addr.Email] }
      .ok user

/-- The method `handleAddressEvents`. -/
def handleAddressEvents (env : Env) (user : User) : List liteapi.AddressEvent → Result
  | [] => .ok user
  | event :: rest =>
    let step : Result :=
      match event.Action with
      | .EventCreate =>
        (handleCreateAddressEvent env user event).wrapErr "failed to handle create address event"
      | .EventUpdate | .EventUpdateFlags =>
        (handleUpdateAddressEvent env user event).wrapErr "failed to handle update address event"
      | .EventDelete =>
        (handleDeleteAddressEvent env user event).wrapErr "failed to delete address"
    match step with
    | .ok user => handleAddressEvents env user rest
    | r => r

/-- The method `handleCreateLabelEvent`. -/
def handleCreateLabelEvent (env : Env) (user : User) (event : liteapi.LabelEvent) : Result :=
  if (user.apiLabels.lookup event.Label.ID).isSome then
    .err (.errorf "label %q already exists" event.ID) user
  else
    let user := { user with apiLabels := user.apiLabels.insert event.Label.ID event.Label }
    match rangeEnqueue (newMailboxCreatedUpdate event.ID (getMailboxName event.Label))
        user.queues user.updateCh.values with
    | none => .panic
    | some qs =>
      let user := { user with queues := qs }
      let user := { user with
        eventCh := user.eventCh ++
          [.UserLabelCreated (env.ID user) event.Label.ID event.Label.Name] }
      .ok user

/-- The method `handleUpdateLabelEvent`. -/
def handleUpdateLabelEvent (env : Env) (user : User) (event : liteapi.LabelEvent) : Result :=
  if ¬ (user.apiLabels.lookup event.Label.ID).isSome then
    .err (.errorf "label %q does not exist" event.ID) user
  else
    let user := { user with apiLabels := user.apiLabels.insert event.Label.ID event.Label }
    match rangeEnqueue (.MailboxUpdated event.ID (getMailboxName event.Label))
        user.queues user.updateCh.values with
    | none => .panic
    | some qs =>
      let user := { user with queues := qs }
      let user := { user with
        eventCh := user.eventCh ++
          [.UserLabelUpdated (env.ID user) event.Label.ID event.Label.Name] }
      .ok user

/-- The method `handleDeleteLabelEvent`. -/
def handleDeleteLabelEvent (env : Env) (user : User) (event : liteapi.LabelEvent) : Result :=
  match user.apiLabels.lookup event.ID with
  | none => .err (.errorf "label %q does not exist" event.ID) user
  | some label =>
    let user := { user with apiLabels := user.apiLabels.erase event.ID }
    match rangeEnqueue (.MailboxDeleted event.ID) user.queues user.updateCh.values with
    | none => .panic
    | some qs =>
      let user := { user with queues := qs }
      let user := { user with
        eventCh := user.eventCh ++ [.UserLabelDeleted (env.ID user) event.ID label.Name] }
      .ok user

/-- The method `handleLabelEvents`. -/
def handleLabelEvents (env : Env) (user : User) : List liteapi.LabelEvent → Result
  | [] => .ok user
  | event :: rest =>
    let step : Result :=
      match event.Action with
      | .EventCreate =>
        (handleCreateLabelEvent env user event).wrapErr "failed to handle create label event"
      | .EventUpdate | .EventUpdateFlags =>
        (handleUpdateLabelEvent env user event).wrapErr "failed to handle update label event"
      | .EventDelete =>
        (handleDeleteLabelEvent env user event).wrapErr "failed to handle delete label event"
    match step with
    | .ok user => handleLabelEvents env user rest
    | r => r

/-- The method `handleCreateMessageEvent`. -/
def handleCreateMessageEvent (env : Env) (user : User) (event : liteapi.MessageEvent) : Result :=
  let answer := env.GetFullMessage user.remoteCalls event.Message.ID
  let user := { user with remoteCalls := user.remoteCalls + 1 }
  match answer with
  | .error err => .err (.wrap "failed to get full message" err) user
  | .ok full =>
    withAddrKR env user user.apiUser (user.apiAddrs.index event.Message.AddressID .zero)
      user.vault.KeyPass fun addrKR =>
        match env.buildRFC822 full addrKR with
        | .error err => .err (.wrap "failed to build RFC822 message" err) user
        | .ok update =>
          match Enqueue user.queues (user.updateCh.index full.AddressID none)
              (.MessagesCreated update) with
          | none => .panic
          | some qs => .ok { user with queues := qs }

/-- Modelled from the spec: `mapTo` maps the label identifiers to mailbox
identifiers, one for one and in order (a change of string type). -/
def mapTo (xs : List String) : List String := xs.map id

/-- The method `handleUpdateMessageEvent`. -/
def handleUpdateMessageEvent (env : Env) (user : User) (event : liteapi.MessageEvent) : Result :=
  let update : imap.Update :=
    .MessageMailboxesUpdated event.ID
      (mapTo (event.Message.LabelIDs.filter env.wantLabelID))
      event.Message.Seen event.Message.Starred
  match Enqueue user.queues (user.updateCh.index event.Message.AddressID none) update with
  | none => .panic
  | some qs => .ok { user with queues := qs }

/-- The method `handleDeleteMessageEvent`. -/
def handleDeleteMessageEvent (_env : Env) (user : User) (event : liteapi.MessageEvent) : Result :=
  match rangeEnqueue (.MessagesDeleted event.ID) user.queues user.updateCh.values with
  | none => .panic
  | some qs => .ok { user with queues := qs }

/-- The method `handleMessageEvents`. -/
def handleMessageEvents (env : Env) (user : User) : List liteapi.MessageEvent → Result
  | [] => .ok user
  | event :: rest =>
    let step : Result :=
      match event.Action with
      | .EventCreate =>
        (handleCreateMessageEvent env user event).wrapErr "failed to handle create message event"
      | .EventUpdate | .EventUpdateFlags =>
        (handleUpdateMessageEvent env user event).wrapErr "failed to handle update message event"
      | .EventDelete =>
        (handleDeleteMessageEvent env user event).wrapErr "failed to handle delete message event"
    match step with
    | .ok user => handleMessageEvents env user rest
    | r => r

/-- The method `handleAPIEvent`. -/
def handleAPIEvent (env : Env) (user : User) (event : liteapi.Event) : Result :=
  let afterUser : Result :=
    match event.User with
    | some userEvent => handleUserEvent env user userEvent
    | none => .ok user
  afterUser.andThen fun user =>
    let afterAddresses : Result :=
      if event.Addresses.length > 0 then handleAddressEvents env user event.Addresses
      else .ok user
    afterAddresses.andThen fun user =>
      let afterLabels : Result :=
        if event.Labels.length > 0 then handleLabelEvents env user event.Labels
        else .ok user
      afterLabels.andThen fun user =>
        if event.Messages.length > 0 then handleMessageEvents env user event.Messages
        else .ok user

/-! ## Vocabulary of the specification -/

/-- One sub-event of a batch. -/
inductive SubEvent where
  | user (e : liteapi.User)
  | address (e : liteapi.AddressEvent)
  | label (e : liteapi.LabelEvent)
  | message (e : liteapi.MessageEvent)
deriving DecidableEq, Repr

/-- The sub-events of a batch in the order the specification fixes: the user
sub-event if present, then the address, label and message sub-events, each
list in the order received. -/
def subEvents (event : liteapi.Event) : List SubEvent :=
  event.User.toList.map .user ++ event.Addresses.map .address ++
    event.Labels.map .label ++ event.Messages.map .message

/-- Applies one sub-event with the handler its action tag selects. -/
def applySubEvent (env : Env) (user : User) : SubEvent → Result
  | .user e => handleUserEvent env user e
  | .address e =>
    match e.Action with
    | .EventCreate => handleCreateAddressEvent env user e
    | .EventUpdate => handleUpdateAddressEvent env user e
    | .EventUpdateFlags => handleUpdateAddressEvent env user e
    | .EventDelete => handleDeleteAddressEvent env user e
  | .label e =>
    match e.Action with
    | .EventCreate => handleCreateLabelEvent env user e
    | .EventUpdate => handleUpdateLabelEvent env user e
    | .EventUpdateFlags => handleUpdateLabelEvent env user e
    | .EventDelete => handleDeleteLabelEvent env user e
  | .message e =>
    match e.Action with
    | .EventCreate => handleCreateMessageEvent env user e
    | .EventUpdate => handleUpdateMessageEvent env user e
    | .EventUpdateFlags => handleUpdateMessageEvent env user e
    | .EventDelete => handleDeleteMessageEvent env user e

/-- Applies the sub-events one after the other; `none` as soon as a handler
does not succeed. -/
def applyAll (env : Env) (user : User) : List SubEvent → Option User
  | [] => some user
  | e :: es =>
    match applySubEvent env user e with
    | .ok user1 => applyAll env user1 es
    | _ => none

/-- Applies the sub-events one after the other and stops at the first handler
that does not succeed, with that handler's outcome. -/
def applyUntil (env : Env) (user : User) : List SubEvent → Result
  | [] => .ok user
  | e :: es =>
    match applySubEvent env user e with
    | .ok user1 => applyUntil env user1 es
    | r => r

/-- Two states agree on profile, address table, label table, queue registry,
queue contents and notification stream. -/
def User.sameState (a b : User) : Prop :=
  a.apiUser = b.apiUser ∧ a.apiAddrs = b.apiAddrs ∧ a.apiLabels = b.apiLabels ∧
    a.updateCh = b.updateCh ∧ a.queues = b.queues ∧ a.eventCh = b.eventCh

instance (a b : User) : Decidable (a.sameState b) :=
  inferInstanceAs (Decidable (_ ∧ _))

/-- The claim that after a failed batch the state is the one obtained by
applying the sub-events that precede the failing one. -/
def PrefixApplied (env : Env) (user : User) (event : liteapi.Event) (user' : User) : Prop :=
  ∃ pre failing post u0, subEvents event = pre ++ failing :: post ∧
    applyAll env user pre = some u0 ∧ (∀ u1, applySubEvent env u0 failing ≠ .ok u1) ∧
    user'.sameState u0

/-- The pointer refers to an allocated queue. -/
def live (qs : List QueuedChannel) : Ptr → Bool
  | none => false
  | some h => decide (h < qs.length)

/-- The pointer refers to an allocated queue that is open. -/
def usable (qs : List QueuedChannel) : Ptr → Bool
  | none => false
  | some h =>
    match qs[h]? with
    | none => false
    | some q => !q.closed

/-- Every entry of the queue registry is a usable queue. -/
def User.registryUsable (user : User) : Prop :=
  ∀ p ∈ user.updateCh.values, usable user.queues p = true

instance (user : User) : Decidable user.registryUsable :=
  inferInstanceAs (Decidable (∀ p ∈ user.updateCh.values, usable user.queues p = true))

/-- The outcome of `n` calls of `Enqueue` with the same update. -/
def queue.QueuedChannel.EnqueueN (q : QueuedChannel) (x : imap.Update) (n : Nat) :
    QueuedChannel :=
  if q.closed then q else { q with items := q.items ++ List.replicate n x }

/-- The mailbox-created updates equivalent to a label snapshot. -/
def bootstrapUpdates (labels : List liteapi.Label) : List imap.Update :=
  labels.map fun label => newMailboxCreatedUpdate label.ID (getMailboxName label)

/-! ## Example inputs -/

/-- Collaborators whose calls all succeed; the label snapshot has one folder. -/
def demoEnv : Env where
  ID := fun user => user.apiUser.ID
  GetFullMessage := fun _ id => .ok ⟨id, "A", "body"⟩
  GetLabels := fun _ => .ok [⟨"F", "2024", ["Work", "2024"], liteapi.LabelTypeFolder⟩]
  unlock := fun _ _ _ => .ok "keyring"
  buildRFC822 := fun full _ => .ok full.Body
  wantLabelID := fun id => id != "1"

/-- Collaborators whose remote client is unreachable. -/
def demoEnvDown : Env where
  ID := fun user => user.apiUser.ID
  GetFullMessage := fun _ _ => .error (.external "network down")
  GetLabels := fun _ => .error (.external "network down")
  unlock := fun _ _ _ => .ok "keyring"
  buildRFC822 := fun full _ => .ok full.Body
  wantLabelID := fun id => id != "1"

def addrA : liteapi.Address := ⟨"A", "a@example.org", true, 1, ""⟩

def addrB : liteapi.Address := ⟨"B", "b@example.org", true, 2, ""⟩

def labelWork : liteapi.Label := ⟨"L", "2024", ["Work", "2024"], liteapi.LabelTypeFolder⟩

/-- Combined mode, primary address A registered against queue 0. -/
def demoCombined : User where
  vault := ⟨.CombinedMode, "pass"⟩
  apiUser := ⟨"U", "user", ""⟩
  apiAddrs := (∅ : GoMap liteapi.Address).insert "A" addrA
  apiLabels := ∅
  updateCh := (∅ : GoMap Ptr).insert "A" (some 0)
  eventCh := []
  queues := [NewQueuedChannel]
  remoteCalls := 0

/-- Combined mode, addresses A and B registered against the same queue 0. -/
def demoShared : User where
  vault := ⟨.CombinedMode, "pass"⟩
  apiUser := ⟨"U", "user", ""⟩
  apiAddrs := ((∅ : GoMap liteapi.Address).insert "A" addrA).insert "B" addrB
  apiLabels := (∅ : GoMap liteapi.Label).insert "L" labelWork
  updateCh := ((∅ : GoMap Ptr).insert "A" (some 0)).insert "B" (some 0)
  eventCh := []
  queues := [NewQueuedChannel]
  remoteCalls := 0

/-- Split mode, address A registered against its own queue 0, which holds one update. -/
def demoSplit : User where
  vault := ⟨.SplitMode, "pass"⟩
  apiUser := ⟨"U", "user", ""⟩
  apiAddrs := (∅ : GoMap liteapi.Address).insert "A" addrA
  apiLabels := (∅ : GoMap liteapi.Label).insert "L" labelWork
  updateCh := (∅ : GoMap Ptr).insert "A" (some 0)
  eventCh := []
  queues := [⟨[.MailboxDeleted "old"], false⟩]
  remoteCalls := 0

/-- Queue `h` of the heap holds, after the step from `user` to `user'`, its
former contents followed by `xs`, appended at the tail. -/
def AppendedTo (user user' : User) (h : Nat) (xs : List imap.Update) : Prop :=
  ∃ q, user.queues[h]? = some q ∧ user'.queues[h]? = some ⟨q.items ++ xs, q.closed⟩

/-- The step from `user` to `user'` appended exactly the update `x` at the tail
of each queue that is in the registry of `user`, and changed nothing else of the
registry and the heap: no registry entry, no other queue, and no queue was
allocated. -/
def BroadcastOnce (user user' : User) (x : imap.Update) : Prop :=
  user'.updateCh = user.updateCh ∧ user'.queues.length = user.queues.length ∧
    (∀ k h, user.updateCh.lookup k = some (some h) → AppendedTo user user' h [x]) ∧
    (∀ h : Nat, some h ∉ user.updateCh.values → user'.queues[h]? = user.queues[h]?)

def labelOther : liteapi.Label := ⟨"M", "Inbox", ["Inbox"], liteapi.LabelTypeSystem⟩

/-- Split mode, addresses A and B registered against their own queues 0 and 1;
queue 2 is allocated but not registered. -/
def demoTwoQueues : User where
  vault := ⟨.SplitMode, "pass"⟩
  apiUser := ⟨"U", "user", ""⟩
  apiAddrs := ((∅ : GoMap liteapi.Address).insert "A" addrA).insert "B" addrB
  apiLabels := (∅ : GoMap liteapi.Label).insert "L" labelWork
  updateCh := ((∅ : GoMap Ptr).insert "A" (some 0)).insert "B" (some 1)
  eventCh := []
  queues := [⟨[.MailboxDeleted "old"], false⟩, NewQueuedChannel, NewQueuedChannel]
  remoteCalls := 0

/-- Two outcomes agree: the same kind of outcome, the same state left behind,
and, for errors, the same root cause under possibly different wrappers. -/
def Result.sim : Result → Result → Prop
  | .ok a, .ok b => a = b
  | .err e a, .err f b => a = b ∧ e.root = f.root
  | .panic, .panic => True
  | _, _ => False

/-- What a Split-mode address create that fails in its label bootstrap leaves
behind on top of the state `u0` it started from: the address is in the table,
its registry entry is a newly allocated empty queue, and the AddressCreated
notification has been pushed. -/
def CreatedWithoutBootstrap (u0 user' : User) (event : liteapi.AddressEvent) : Prop :=
  u0.vault.AddressMode = .SplitMode ∧ event.Address.ID ∉ u0.apiAddrs ∧
    user'.apiUser = u0.apiUser ∧ user'.apiLabels = u0.apiLabels ∧
    user'.apiAddrs = u0.apiAddrs.insert event.Address.ID event.Address ∧
    user'.updateCh = u0.updateCh.insert event.Address.ID (some u0.queues.length) ∧
    user'.queues = u0.queues ++ [NewQueuedChannel] ∧
    ∃ uid, user'.eventCh =
      u0.eventCh ++ [.UserAddressCreated uid event.Address.ID event.Address.Email]

/-- A batch with the single sub-event "create address B". -/
def demoBatchCreateB : liteapi.Event := ⟨none, [⟨"B", .EventCreate, addrB⟩], [], []⟩

/-- The state `demoSplit` after a create of address B whose label bootstrap failed. -/
def demoSplitFailed : User where
  vault := ⟨.SplitMode, "pass"⟩
  apiUser := ⟨"U", "user", ""⟩
  apiAddrs := ((∅ : GoMap liteapi.Address).insert "A" addrA).insert "B" addrB
  apiLabels := (∅ : GoMap liteapi.Label).insert "L" labelWork
  updateCh := ((∅ : GoMap Ptr).insert "A" (some 0)).insert "B" (some 1)
  eventCh := [.UserAddressCreated "U" "B" "b@example.org"]
  queues := [⟨[.MailboxDeleted "old"], false⟩, NewQueuedChannel]
  remoteCalls := 1

/-- A batch with a user sub-event, two address sub-events, one label sub-event
and two message sub-events. -/
def demoBatch : liteapi.Event where
  User := some ⟨"U", "renamed", ""⟩
  Addresses := [⟨"B", .EventCreate, addrB⟩, ⟨"A", .EventUpdate, addrA⟩]
  Labels := [⟨"M", .EventCreate, labelOther⟩]
  Messages := [⟨"m1", .EventCreate, ⟨"m1", "A", ["M", "1"], "hello", false, true⟩⟩,
    ⟨"m1", .EventDelete, ⟨"m1", "A", [], "", false, false⟩⟩]

/-- A batch whose second address sub-event fails: address A exists already. -/
def demoBatchFailing : liteapi.Event where
  User := some ⟨"U", "renamed", ""⟩
  Addresses := [⟨"B", .EventCreate, addrB⟩, ⟨"A", .EventCreate, addrA⟩,
    ⟨"B", .EventDelete, addrB⟩]
  Labels := [⟨"M", .EventCreate, labelOther⟩]
  Messages := []

/-- The state `demoCombined` after the whole of `demoBatch`. -/
def demoCombinedDone : User where
  vault := ⟨.CombinedMode, "pass"⟩
  apiUser := ⟨"U", "renamed", ""⟩
  apiAddrs := ((∅ : GoMap liteapi.Address).insert "B" addrB).insert "A" addrA
  apiLabels := (∅ : GoMap liteapi.Label).insert "M" labelOther
  updateCh := ((∅ : GoMap Ptr).insert "A" (some 0)).insert "B" (some 0)
  eventCh := [.UserChanged "U", .UserAddressCreated "U" "B" "b@example.org",
    .UserAddressUpdated "U" "A" "a@example.org", .UserLabelCreated "U" "M" "Inbox"]
  queues := [⟨[.MailboxCreated "M" ["Inbox"], .MailboxCreated "M" ["Inbox"],
    .MessagesCreated "body", .MessagesDeleted "m1", .MessagesDeleted "m1"], false⟩]
  remoteCalls := 1

/-- The state `demoCombined` after the first two sub-events of `demoBatchFailing`. -/
def demoCombinedFailed : User where
  vault := ⟨.CombinedMode, "pass"⟩
  apiUser := ⟨"U", "renamed", ""⟩
  apiAddrs := ((∅ : GoMap liteapi.Address).insert "A" addrA).insert "B" addrB
  apiLabels := ∅
  updateCh := ((∅ : GoMap Ptr).insert "A" (some 0)).insert "B" (some 0)
  eventCh := [.UserChanged "U", .UserAddressCreated "U" "B" "b@example.org"]
  queues := [NewQueuedChannel]
  remoteCalls := 0

/-- Collaborators whose key store cannot unlock the address keys. -/
def demoEnvNoKey : Env where
  ID := fun user => user.apiUser.ID
  GetFullMessage := fun _ id => .ok ⟨id, "A", "body"⟩
  GetLabels := fun _ => .ok []
  unlock := fun _ _ _ => .error (.external "wrong passphrase")
  buildRFC822 := fun full _ => .ok full.Body
  wantLabelID := fun id => id != "1"

/-- Collaborators whose message builder fails. -/
def demoEnvNoBuild : Env where
  ID := fun user => user.apiUser.ID
  GetFullMessage := fun _ id => .ok ⟨id, "A", "body"⟩
  GetLabels := fun _ => .ok []
  unlock := fun _ _ _ => .ok "keyring"
  buildRFC822 := fun _ _ => .error (.external "cannot decrypt")
  wantLabelID := fun id => id != "1"

/-- A message of address A carrying the label identifiers M, 1 and L. -/
def demoMessage : liteapi.MessageMetadata := ⟨"m1", "A", ["M", "1", "L"], "hello", true, false⟩

/-- The state `demoCombined` after the create of address B. -/
def demoCombinedB : User where
  vault := ⟨.CombinedMode, "pass"⟩
  apiUser := ⟨"U", "user", ""⟩
  apiAddrs := ((∅ : GoMap liteapi.Address).insert "A" addrA).insert "B" addrB
  apiLabels := ∅
  updateCh := ((∅ : GoMap Ptr).insert "A" (some 0)).insert "B" (some 0)
  eventCh := [.UserAddressCreated "U" "B" "b@example.org"]
  queues := [NewQueuedChannel]
  remoteCalls := 0

/-- The predicate of the Combined-mode invariant: the registry entry of every
non-primary address of the table is the same queue pointer as the registry
entry of the primary address, the one `getAddrIdx` finds at index 0. -/
def User.combinedShared (user : User) : Prop :=
  ∀ primAddr ∈ (getAddrIdx user.apiAddrs 0).toOption, ∀ a ∈ user.apiAddrs.values,
    a ≠ primAddr → user.updateCh.index a.ID none = user.updateCh.index primAddr.ID none

instance (user : User) : Decidable user.combinedShared :=
  inferInstanceAs (Decidable (∀ primAddr ∈ (getAddrIdx user.apiAddrs 0).toOption,
    ∀ a ∈ user.apiAddrs.values,
      a ≠ primAddr → user.updateCh.index a.ID none = user.updateCh.index primAddr.ID none))

/-- An address whose ordering position is lower than that of address A. -/
def addrZ : liteapi.Address := ⟨"Z", "z@example.org", true, 0, ""⟩

/-- The state `demoCombined` after the create of address Z: the registry entry
of Z is the nil pointer. -/
def demoCombinedZ : User where
  vault := ⟨.CombinedMode, "pass"⟩
  apiUser := ⟨"U", "user", ""⟩
  apiAddrs := ((∅ : GoMap liteapi.Address).insert "A" addrA).insert "Z" addrZ
  apiLabels := ∅
  updateCh := ((∅ : GoMap Ptr).insert "A" (some 0)).insert "Z" none
  eventCh := [.UserAddressCreated "U" "Z" "z@example.org"]
  queues := [NewQueuedChannel]
  remoteCalls := 0

/-- The address table is keyed by the identifiers of its addresses. -/
def User.keyed (user : User) : Prop :=
  ∀ e ∈ user.apiAddrs.entries, e.2.ID = e.1

instance (user : User) : Decidable user.keyed :=
  inferInstanceAs (Decidable (∀ e ∈ user.apiAddrs.entries, e.2.ID = e.1))

/-- The predicate of the registry invariant: every address identifier of the
address table has an entry in the queue registry, and that entry is a usable
queue.  (A map holds at most one entry per identifier.) -/
def User.addressesRegistered (user : User) : Prop :=
  ∀ k ∈ user.apiAddrs.keys, usable user.queues (user.updateCh.index k none) = true

instance (user : User) : Decidable user.addressesRegistered :=
  inferInstanceAs (Decidable (∀ k ∈ user.apiAddrs.keys,
    usable user.queues (user.updateCh.index k none) = true))

/-- Some address of the table has a lower ordering position than the address of
the event, so the address of the event does not become the primary address. -/
def abovePrimary (user : User) (event : liteapi.AddressEvent) : Prop :=
  ∃ a ∈ user.apiAddrs.values, a.Order < event.Address.Order

/-- No other address of the table is registered against the queue that the
identifier `id` is registered against. -/
def ownQueue (user : User) (id : String) : Prop :=
  ∀ k ∈ user.apiAddrs.keys, k ≠ id →
    user.updateCh.index k none ≠ user.updateCh.index id none

/-- Split mode, addresses A and B registered against the same queue 0. -/
def demoSharedSplit : User where
  vault := ⟨.SplitMode, "pass"⟩
  apiUser := ⟨"U", "user", ""⟩
  apiAddrs := ((∅ : GoMap liteapi.Address).insert "A" addrA).insert "B" addrB
  apiLabels := (∅ : GoMap liteapi.Label).insert "L" labelWork
  updateCh := ((∅ : GoMap Ptr).insert "A" (some 0)).insert "B" (some 0)
  eventCh := []
  queues := [NewQueuedChannel]
  remoteCalls := 0

instance (user : User) (event : liteapi.AddressEvent) : Decidable (abovePrimary user event) :=
  inferInstanceAs (Decidable (∃ a ∈ user.apiAddrs.values, a.Order < event.Address.Order))

instance (user : User) (id : String) : Decidable (ownQueue user id) :=
  inferInstanceAs (Decidable (∀ k ∈ user.apiAddrs.keys, k ≠ id →
    user.updateCh.index k none ≠ user.updateCh.index id none))

/-! ## Queues and pointers -/

theorem Enqueue_closed (q : QueuedChannel) (x : imap.Update) :
    (q.Enqueue x).closed = q.closed := by
  unfold QueuedChannel.Enqueue
  split <;> simp_all

theorem EnqueueN_zero (q : QueuedChannel) (x : imap.Update) : q.EnqueueN x 0 = q := by
  unfold QueuedChannel.EnqueueN
  split <;> simp

theorem EnqueueN_succ (q : QueuedChannel) (x : imap.Update) (n : Nat) :
    (q.Enqueue x).EnqueueN x n = q.EnqueueN x (n + 1) := by
  unfold QueuedChannel.EnqueueN QueuedChannel.Enqueue
  by_cases hc : q.closed = true
  · simp [hc]
  · simp [hc, List.replicate_succ]

theorem EnqueueN_open (q : QueuedChannel) (x : imap.Update) (n : Nat) (hq : q.closed = false) :
    q.EnqueueN x n = ⟨q.items ++ List.replicate n x, false⟩ := by
  unfold QueuedChannel.EnqueueN
  cases q
  simp_all

theorem live_iff {qs : List QueuedChannel} {p : Ptr} :
    live qs p = true ↔ ∃ h, p = some h ∧ h < qs.length := by
  cases p <;> simp [live]

theorem usable_iff {qs : List QueuedChannel} {p : Ptr} :
    usable qs p = true ↔ ∃ h q, p = some h ∧ qs[h]? = some q ∧ q.closed = false := by
  cases p with
  | none => simp [usable]
  | some h =>
    simp only [usable]
    rcases hq : qs[h]? with _ | q <;> simp [hq]

theorem usable_live {qs : List QueuedChannel} {p : Ptr} (h : usable qs p = true) :
    live qs p = true := by
  obtain ⟨h0, q, rfl, hq, -⟩ := usable_iff.mp h
  exact live_iff.mpr ⟨h0, rfl, (List.getElem?_eq_some.mp hq).1⟩

theorem Enqueue_eq_some {qs qs' : List QueuedChannel} {p : Ptr} {x : imap.Update} :
    Enqueue qs p x = some qs' ↔
      ∃ h q, p = some h ∧ qs[h]? = some q ∧ qs' = qs.set h (q.Enqueue x) := by
  cases p with
  | none => simp [Enqueue]
  | some h =>
    simp only [Enqueue]
    rcases hq : qs[h]? with _ | q <;> simp [hq, eq_comm]

theorem Enqueue_getElem? {qs qs' : List QueuedChannel} {p : Ptr} {x : imap.Update}
    (hE : Enqueue qs p x = some qs') :
    live qs p = true ∧ qs'.length = qs.length ∧
      ∀ h : Nat, qs'[h]? =
        (qs[h]?).map fun q : QueuedChannel => if p = some h then q.Enqueue x else q := by
  obtain ⟨h0, q0, rfl, hq0, rfl⟩ := Enqueue_eq_some.mp hE
  have hlt : h0 < qs.length := (List.getElem?_eq_some.mp hq0).1
  refine ⟨live_iff.mpr ⟨h0, rfl, hlt⟩, by simp, ?_⟩
  intro h
  by_cases hh : h0 = h
  · subst hh
    simp [hq0, hlt]
  · have : ¬ (some h0 : Ptr) = some h := by simpa using hh
    rw [List.getElem?_set_ne hh]
    cases qs[h]? <;> simp [hh]

theorem rangeEnqueue_getElem? (x : imap.Update) :
    ∀ (ps : List Ptr) (qs qs' : List QueuedChannel), rangeEnqueue x qs ps = some qs' →
      (∀ p ∈ ps, live qs p = true) ∧ qs'.length = qs.length ∧
        ∀ h : Nat, qs'[h]? =
          (qs[h]?).map fun q : QueuedChannel => q.EnqueueN x (ps.count (some h)) := by
  intro ps
  induction ps with
  | nil =>
    intro qs qs' h
    simp only [rangeEnqueue, Option.some.injEq] at h
    subst h
    refine ⟨by simp, rfl, fun h => ?_⟩
    cases qs[h]? <;> simp [EnqueueN_zero]
  | cons p ps ih =>
    intro qs qs' h
    unfold rangeEnqueue at h
    cases hE : Enqueue qs p x with
    | none => simp [hE] at h
    | some qs1 =>
      simp only [hE] at h
      obtain ⟨hl1, hlen1, hget1⟩ := Enqueue_getElem? hE
      obtain ⟨hl, hlen, hget⟩ := ih qs1 qs' h
      refine ⟨?_, hlen.trans hlen1, fun h => ?_⟩
      · intro p' hp'
        rcases List.mem_cons.mp hp' with rfl | hp'
        · exact hl1
        · have := hl p' hp'
          obtain ⟨h', rfl, hlt⟩ := live_iff.mp this
          exact live_iff.mpr ⟨h', rfl, hlen1 ▸ hlt⟩
      · rw [hget h, hget1 h]
        cases qs[h]? with
        | none => simp
        | some q =>
          by_cases hp : p = some h
          · subst hp
            simp [EnqueueN_succ]
          · have hp' : ¬ (some h : Ptr) = p := fun e => hp e.symm
            simp [hp, List.count_cons, hp']

theorem rangeEnqueue_isSome (x : imap.Update) :
    ∀ (ps : List Ptr) (qs : List QueuedChannel), (∀ p ∈ ps, live qs p = true) →
      ∃ qs', rangeEnqueue x qs ps = some qs' := by
  intro ps
  induction ps with
  | nil => intro qs _; exact ⟨qs, rfl⟩
  | cons p ps ih =>
    intro qs hl
    obtain ⟨h0, rfl, hlt⟩ := live_iff.mp (hl p (List.mem_cons_self _ _))
    have hq : qs[h0]? = some qs[h0] := List.getElem?_eq_getElem hlt
    have hE : Enqueue qs (some h0) x = some (qs.set h0 (qs[h0].Enqueue x)) :=
      Enqueue_eq_some.mpr ⟨h0, _, rfl, hq, rfl⟩
    have hl' : ∀ p ∈ ps, live (qs.set h0 (qs[h0].Enqueue x)) p = true := by
      intro p hp
      obtain ⟨h', rfl, hlt'⟩ := live_iff.mp (hl p (List.mem_cons_of_mem _ hp))
      exact live_iff.mpr ⟨h', rfl, by simpa using hlt'⟩
    obtain ⟨qs', h'⟩ := ih _ hl'
    exact ⟨qs', by unfold rangeEnqueue; simp only [hE]; exact h'⟩

/-! ## Mailbox names -/

/-- C7: `getMailboxName` returns the segment "Folders" followed by the path for
a label of type Folder, the segment "Labels" followed by the path for type
Label, and the path unchanged for type System, type ContactGroup and every
other type value; path `["Work","2024"]` gives `["Folders","Work","2024"]`,
`["Labels","Work","2024"]` and `["Work","2024"]`.  The result is one longer than
the path in the two prefixed cases and the path is always a suffix of it. -/
theorem getMailboxName_spec (id name : String) (path : List String) (t : liteapi.LabelType) :
    getMailboxName ⟨id, name, path, liteapi.LabelTypeFolder⟩ = "Folders" :: path ∧
    getMailboxName ⟨id, name, path, liteapi.LabelTypeLabel⟩ = "Labels" :: path ∧
    getMailboxName ⟨id, name, path, liteapi.LabelTypeSystem⟩ = path ∧
    getMailboxName ⟨id, name, path, liteapi.LabelTypeContactGroup⟩ = path ∧
    (t ≠ liteapi.LabelTypeFolder → t ≠ liteapi.LabelTypeLabel →
      getMailboxName ⟨id, name, path, t⟩ = path) ∧
    getMailboxName ⟨id, name, ["Work", "2024"], liteapi.LabelTypeFolder⟩ =
      ["Folders", "Work", "2024"] ∧
    getMailboxName ⟨id, name, ["Work", "2024"], liteapi.LabelTypeLabel⟩ =
      ["Labels", "Work", "2024"] ∧
    getMailboxName ⟨id, name, ["Work", "2024"], liteapi.LabelTypeSystem⟩ = ["Work", "2024"] ∧
    getMailboxName ⟨id, name, ["Work", "2024"], liteapi.LabelTypeContactGroup⟩ =
      ["Work", "2024"] ∧
    (getMailboxName ⟨id, name, path, liteapi.LabelTypeFolder⟩).length = path.length + 1 ∧
    (getMailboxName ⟨id, name, path, liteapi.LabelTypeLabel⟩).length = path.length + 1 ∧
    path <:+ getMailboxName ⟨id, name, path, t⟩ := by
  have hF : getMailboxName ⟨id, name, path, liteapi.LabelTypeFolder⟩ = "Folders" :: path := by
    simp [getMailboxName, folderPrefix]
  have hL : getMailboxName ⟨id, name, path, liteapi.LabelTypeLabel⟩ = "Labels" :: path := by
    simp [getMailboxName, labelPrefix, liteapi.LabelTypeLabel, liteapi.LabelTypeFolder]
  refine ⟨hF, hL, ?_, ?_, ?_, ?_, ?_, ?_, ?_, ?_, ?_, ?_⟩
  · simp [getMailboxName, liteapi.LabelTypeSystem, liteapi.LabelTypeLabel,
      liteapi.LabelTypeFolder]
  · simp [getMailboxName, liteapi.LabelTypeContactGroup, liteapi.LabelTypeLabel,
      liteapi.LabelTypeFolder]
  · intro h1 h2
    simp [getMailboxName, h1, h2]
  · simp [getMailboxName, folderPrefix]
  · simp [getMailboxName, labelPrefix, liteapi.LabelTypeLabel, liteapi.LabelTypeFolder]
  · simp [getMailboxName, liteapi.LabelTypeSystem, liteapi.LabelTypeLabel,
      liteapi.LabelTypeFolder]
  · simp [getMailboxName, liteapi.LabelTypeContactGroup, liteapi.LabelTypeLabel,
      liteapi.LabelTypeFolder]
  · rw [hF]; rfl
  · rw [hL]; rfl
  · unfold getMailboxName
    split
    · exact List.suffix_append _ _
    · split
      · exact List.suffix_append _ _
      · exact List.suffix_refl _

/-- Witness of C7 at a type value outside the four named ones. -/
theorem getMailboxName_spec_witness :
    (7 : liteapi.LabelType) ≠ liteapi.LabelTypeFolder ∧
    (7 : liteapi.LabelType) ≠ liteapi.LabelTypeLabel ∧
    getMailboxName ⟨"L", "2024", ["Work", "2024"], 7⟩ = ["Work", "2024"] :=
  ⟨by decide, by decide,
    (getMailboxName_spec "L" "2024" ["Work", "2024"] 7).2.2.2.2.1 (by decide) (by decide)⟩

/-! ## Failing handlers that leave the state untouched -/

/-- C5: an address create event whose address identifier is already in the
address table returns an error, whose root cause is the duplicate-entity error
"address already exists", and leaves the whole state (address table, queue
registry, every queue and the notification stream included) unchanged, whatever
the address mode. -/
theorem handleCreateAddressEvent_duplicate (env : Env) (user : User)
    (event : liteapi.AddressEvent) (h : event.Address.ID ∈ user.apiAddrs) :
    ∃ e, handleCreateAddressEvent env user event = .err e user ∧
      e.root = .errorf "address %q already exists" event.ID := by
  have hs : (user.apiAddrs.lookup event.Address.ID).isSome = true := AList.lookup_isSome.mpr h
  refine ⟨.wrap "failed to handle create address event"
    (.errorf "address %q already exists" event.ID), ?_, rfl⟩
  simp [handleCreateAddressEvent, hs, Result.wrapErr, Result.andThen]

/-- Witness of C5: creating address A again in a Split-mode state that holds A. -/
theorem handleCreateAddressEvent_duplicate_witness :
    addrA.ID ∈ demoSplit.apiAddrs ∧
    ∃ e, handleCreateAddressEvent demoEnv demoSplit ⟨"A", .EventCreate, addrA⟩ =
        .err e demoSplit ∧
      e.root = .errorf "address %q already exists" "A" :=
  ⟨by decide, handleCreateAddressEvent_duplicate demoEnv demoSplit ⟨"A", .EventCreate, addrA⟩
    (by decide)⟩

/-- C6: a delete event for an address identifier absent from the address table,
and a delete event for a label identifier absent from the label table, each
return an error, whose root cause is the unknown-entity error "does not exist",
and leave the whole state (both tables, queue registry, all queues and the
notification stream included) unchanged. -/
theorem handleDelete_unknown (env : Env) (user : User) (addressEvent : liteapi.AddressEvent)
    (labelEvent : liteapi.LabelEvent) :
    (addressEvent.ID ∉ user.apiAddrs →
      ∃ e, handleDeleteAddressEvent env user addressEvent = .err e user ∧
        e.root = .errorf "address %q does not exist" addressEvent.ID) ∧
    (labelEvent.ID ∉ user.apiLabels →
      ∃ e, handleDeleteLabelEvent env user labelEvent = .err e user ∧
        e.root = .errorf "label %q does not exist" labelEvent.ID) := by
  refine ⟨fun ha => ?_, fun hl => ?_⟩
  · have h1 : user.apiAddrs.lookup addressEvent.ID = none := AList.lookup_eq_none.mpr ha
    refine ⟨.errorf "address %q does not exist" addressEvent.ID, ?_, rfl⟩
    simp [handleDeleteAddressEvent, h1]
  · have h2 : user.apiLabels.lookup labelEvent.ID = none := AList.lookup_eq_none.mpr hl
    refine ⟨.errorf "label %q does not exist" labelEvent.ID, ?_, rfl⟩
    simp [handleDeleteLabelEvent, h2]

/-- Witness of C6: deleting address B and label M, both unknown. -/
theorem handleDelete_unknown_witness :
    "B" ∉ demoSplit.apiAddrs ∧ "M" ∉ demoSplit.apiLabels ∧
    (∃ e, handleDeleteAddressEvent demoEnv demoSplit ⟨"B", .EventDelete, .zero⟩ =
        .err e demoSplit ∧
      e.root = .errorf "address %q does not exist" "B") ∧
    (∃ e, handleDeleteLabelEvent demoEnv demoSplit ⟨"M", .EventDelete, ⟨"", "", [], 0⟩⟩ =
        .err e demoSplit ∧
      e.root = .errorf "label %q does not exist" "M") :=
  ⟨by decide, by decide,
    (handleDelete_unknown demoEnv demoSplit ⟨"B", .EventDelete, .zero⟩
      ⟨"M", .EventDelete, ⟨"", "", [], 0⟩⟩).1 (by decide),
    (handleDelete_unknown demoEnv demoSplit ⟨"B", .EventDelete, .zero⟩
      ⟨"M", .EventDelete, ⟨"", "", [], 0⟩⟩).2 (by decide)⟩

/-! ## The primary address -/

theorem values_insert_of_not_mem {V : Type} (m : GoMap V) (k : String) (v : V) (h : k ∉ m) :
    GoMap.values (m.insert k v) = v :: m.values := by
  unfold GoMap.values
  rw [AList.insert_entries_of_neg h]
  rfl

theorem index_of_lookup {V : Type} (m : GoMap V) (k : String) (v zero : V)
    (h : m.lookup k = some v) : m.index k zero = v := by
  simp [GoMap.index, h]

theorem getAddrIdx_zero_of_lowest (apiAddrs : GoMap liteapi.Address) (A : liteapi.Address)
    (hA : A ∈ apiAddrs.values)
    (hlow : ∀ a ∈ apiAddrs.values, a ≠ A → A.Order < a.Order) :
    getAddrIdx apiAddrs 0 = .ok A := by
  haveI : IsTotal liteapi.Address (fun a b => a.Order ≤ b.Order) := ⟨fun a b => le_total _ _⟩
  haveI : IsTrans liteapi.Address (fun a b => a.Order ≤ b.Order) :=
    ⟨fun a b c hab hbc => le_trans hab hbc⟩
  have hperm := List.perm_insertionSort (fun a b : liteapi.Address => a.Order ≤ b.Order)
    apiAddrs.values
  have hsorted := List.sorted_insertionSort (fun a b : liteapi.Address => a.Order ≤ b.Order)
    apiAddrs.values
  unfold getAddrIdx
  generalize List.insertionSort (fun a b : liteapi.Address => a.Order ≤ b.Order)
    apiAddrs.values = sorted at hperm hsorted
  have hAs : A ∈ sorted := hperm.mem_iff.mpr hA
  cases sorted with
  | nil => simp at hAs
  | cons x tl =>
    have hx : x = A := by
      by_contra hne
      have hxv : x ∈ apiAddrs.values := hperm.mem_iff.mp (List.mem_cons_self _ _)
      have h1 := hlow x hxv hne
      have hAt : A ∈ tl := by
        rcases List.mem_cons.mp hAs with h | h
        · exact absurd h.symm hne
        · exact h
      have h2 : x.Order ≤ A.Order := List.rel_of_sorted_cons hsorted A hAt
      omega
    simp [hx]

/-- C4: in Combined mode, when the primary address A (the one address of the
table with the lowest ordering position) has a registered queue, a create event
for an address B whose identifier is not in the address table and whose
ordering position is higher than that of A succeeds, inserts B into the address
table, and sets the registry entry of B to the very same queue as the registry
entry of A; the heap of queues is unchanged, so no queue is allocated. -/
theorem handleCreateAddressEvent_combined (env : Env) (user : User)
    (event : liteapi.AddressEvent) (A : liteapi.Address) (h : Nat)
    (hmode : user.vault.AddressMode = .CombinedMode)
    (hA : A ∈ user.apiAddrs.values)
    (hlow : ∀ a ∈ user.apiAddrs.values, a ≠ A → A.Order < a.Order)
    (hreg : user.updateCh.lookup A.ID = some (some h))
    (hnew : event.Address.ID ∉ user.apiAddrs)
    (hord : A.Order < event.Address.Order) :
    ∃ user', handleCreateAddressEvent env user event = .ok user' ∧
      user'.apiAddrs.lookup event.Address.ID = some event.Address ∧
      user'.updateCh.lookup event.Address.ID = some (some h) ∧
      user'.updateCh.lookup A.ID = some (some h) ∧
      user'.queues = user.queues := by
  have hs : (user.apiAddrs.lookup event.Address.ID).isSome = false := by
    simp [AList.lookup_eq_none.mpr hnew]
  have hprim : getAddrIdx (user.apiAddrs.insert event.Address.ID event.Address) 0 = .ok A := by
    apply getAddrIdx_zero_of_lowest
    · rw [values_insert_of_not_mem _ _ _ hnew]
      exact List.mem_cons_of_mem _ hA
    · intro a ha hne
      rw [values_insert_of_not_mem _ _ _ hnew] at ha
      rcases List.mem_cons.mp ha with rfl | ha
      · exact hord
      · exact hlow a ha hne
  have hidx : user.updateCh.index A.ID none = some h := index_of_lookup _ _ _ _ hreg
  have key : ∃ user', handleCreateAddressEvent env user event = .ok user' ∧
      user'.apiAddrs = user.apiAddrs.insert event.Address.ID event.Address ∧
      user'.updateCh = user.updateCh.insert event.Address.ID (some h) ∧
      user'.queues = user.queues := by
    simp [handleCreateAddressEvent, hs, hmode, hprim, hidx, Result.wrapErr,
      Result.andThen]
  obtain ⟨user', h1, h2, h3, h4⟩ := key
  refine ⟨user', h1, ?_, ?_, ?_, h4⟩
  · rw [h2, AList.lookup_insert]
  · rw [h3, AList.lookup_insert]
  · rw [h3]
    by_cases hk : A.ID = event.Address.ID
    · rw [hk, AList.lookup_insert]
    · rw [AList.lookup_insert_ne hk, hreg]

/-- Witness of C4: address B (position 2) is created after the primary address
A (position 1), whose queue is queue 0. -/
theorem handleCreateAddressEvent_combined_witness :
    ∃ user', handleCreateAddressEvent demoEnv demoCombined ⟨"B", .EventCreate, addrB⟩ =
        .ok user' ∧
      user'.apiAddrs.lookup "B" = some addrB ∧
      user'.updateCh.lookup "B" = some (some 0) ∧
      user'.updateCh.lookup "A" = some (some 0) ∧
      user'.queues = demoCombined.queues :=
  handleCreateAddressEvent_combined demoEnv demoCombined ⟨"B", .EventCreate, addrB⟩ addrA 0
    (by decide) (by decide) (by decide) (by decide) (by decide) (by decide)

/-! ## Deleting an address in Split mode -/

theorem CloseAndDiscardQueued_some (qs : List QueuedChannel) (h : Nat) (hlt : h < qs.length) :
    CloseAndDiscardQueued qs (some h) = some (qs.set h ⟨[], true⟩) := by
  have hq : qs[h]? = some qs[h] := List.getElem?_eq_getElem hlt
  simp [CloseAndDiscardQueued, hq, QueuedChannel.CloseAndDiscardQueued]

/-- C9: in Split mode, a delete event for an address that is in the address
table and has a registered queue succeeds; it closes that queue and discards
everything queued in it, removes the identifier from the queue registry and from
the address table, leaves every other address, every other registry entry and
every other queue unchanged, and appends exactly one AddressDeleted notification
whose email is the one the address had in the table before the deletion. -/
theorem handleDeleteAddressEvent_split (env : Env) (user : User)
    (event : liteapi.AddressEvent) (addr : liteapi.Address) (h : Nat)
    (hmode : user.vault.AddressMode = .SplitMode)
    (haddr : user.apiAddrs.lookup event.ID = some addr)
    (hreg : user.updateCh.lookup event.ID = some (some h))
    (hlive : h < user.queues.length) :
    ∃ user' uid, handleDeleteAddressEvent env user event = .ok user' ∧
      user'.queues[h]? = some ⟨[], true⟩ ∧
      user'.updateCh.lookup event.ID = none ∧
      user'.apiAddrs.lookup event.ID = none ∧
      (∀ k, k ≠ event.ID → user'.apiAddrs.lookup k = user.apiAddrs.lookup k) ∧
      (∀ k, k ≠ event.ID → user'.updateCh.lookup k = user.updateCh.lookup k) ∧
      (∀ h' : Nat, h' ≠ h → user'.queues[h']? = user.queues[h']?) ∧
      user'.queues.length = user.queues.length ∧
      user'.eventCh = user.eventCh ++ [.UserAddressDeleted uid event.ID addr.Email] ∧
      user'.apiLabels = user.apiLabels ∧ user'.apiUser = user.apiUser := by
  have hidx : user.updateCh.index event.ID none = some h := index_of_lookup _ _ _ _ hreg
  have key : ∃ user' uid, handleDeleteAddressEvent env user event = .ok user' ∧
      user'.queues = user.queues.set h ⟨[], true⟩ ∧
      user'.updateCh = user.updateCh.erase event.ID ∧
      user'.apiAddrs = user.apiAddrs.erase event.ID ∧
      user'.eventCh = user.eventCh ++ [.UserAddressDeleted uid event.ID addr.Email] ∧
      user'.apiLabels = user.apiLabels ∧ user'.apiUser = user.apiUser := by
    simp [handleDeleteAddressEvent, haddr, hmode, hidx,
      CloseAndDiscardQueued_some _ _ hlive]
  obtain ⟨user', uid, h1, h2, h3, h4, h5, h6, h7⟩ := key
  refine ⟨user', uid, h1, ?_, ?_, ?_, ?_, ?_, ?_, ?_, h5, h6, h7⟩
  · rw [h2]; simp [hlive]
  · rw [h3, AList.lookup_erase]
  · rw [h4, AList.lookup_erase]
  · intro k hk; rw [h4, AList.lookup_erase_ne hk]
  · intro k hk; rw [h3, AList.lookup_erase_ne hk]
  · intro h' hh'; rw [h2, List.getElem?_set_ne (Ne.symm hh')]
  · rw [h2]; simp

/-- Witness of C9: deleting address A, whose queue 0 holds one update. -/
theorem handleDeleteAddressEvent_split_witness :
    ∃ user' uid, handleDeleteAddressEvent demoEnv demoSplit ⟨"A", .EventDelete, .zero⟩ =
        .ok user' ∧
      user'.queues[0]? = some ⟨[], true⟩ ∧
      user'.updateCh.lookup "A" = none ∧
      user'.apiAddrs.lookup "A" = none ∧
      (∀ k, k ≠ "A" → user'.apiAddrs.lookup k = demoSplit.apiAddrs.lookup k) ∧
      (∀ k, k ≠ "A" → user'.updateCh.lookup k = demoSplit.updateCh.lookup k) ∧
      (∀ h' : Nat, h' ≠ 0 → user'.queues[h']? = demoSplit.queues[h']?) ∧
      user'.queues.length = demoSplit.queues.length ∧
      user'.eventCh = demoSplit.eventCh ++ [.UserAddressDeleted uid "A" addrA.Email] ∧
      user'.apiLabels = demoSplit.apiLabels ∧ user'.apiUser = demoSplit.apiUser :=
  handleDeleteAddressEvent_split demoEnv demoSplit ⟨"A", .EventDelete, .zero⟩ addrA 0
    (by decide) (by decide) (by decide) (by decide)

/-! ## Label events -/

theorem mem_values_of_lookup {V : Type} {m : GoMap V} {k : String} {v : V}
    (h : m.lookup k = some v) : v ∈ m.values := by
  have : (⟨k, v⟩ : Sigma fun _ : String => V) ∈ m.entries := AList.mem_lookup_iff.mp h
  exact List.mem_map.mpr ⟨_, this, rfl⟩

theorem handleCreateLabelEvent_ok {env : Env} {user user' : User} {event : liteapi.LabelEvent}
    (h : handleCreateLabelEvent env user event = .ok user') :
    event.Label.ID ∉ user.apiLabels ∧
      rangeEnqueue (newMailboxCreatedUpdate event.ID (getMailboxName event.Label))
        user.queues user.updateCh.values = some user'.queues ∧
      user'.updateCh = user.updateCh ∧
      user'.apiLabels = user.apiLabels.insert event.Label.ID event.Label ∧
      user'.apiAddrs = user.apiAddrs ∧ user'.apiUser = user.apiUser ∧
      user'.vault = user.vault ∧ user'.remoteCalls = user.remoteCalls ∧
      ∃ uid, user'.eventCh =
        user.eventCh ++ [.UserLabelCreated uid event.Label.ID event.Label.Name] := by
  unfold handleCreateLabelEvent at h
  by_cases hs : (user.apiLabels.lookup event.Label.ID).isSome = true
  · simp [hs] at h
  · simp only [hs] at h
    rcases hr : rangeEnqueue (newMailboxCreatedUpdate event.ID (getMailboxName event.Label))
      user.queues user.updateCh.values with _ | qs
    · simp [hr] at h
    · simp [hr] at h
      subst h
      refine ⟨fun hm => hs (AList.lookup_isSome.mpr hm), rfl, rfl, rfl, rfl, rfl, rfl, rfl,
        _, rfl⟩

theorem handleUpdateLabelEvent_ok {env : Env} {user user' : User} {event : liteapi.LabelEvent}
    (h : handleUpdateLabelEvent env user event = .ok user') :
    event.Label.ID ∈ user.apiLabels ∧
      rangeEnqueue (.MailboxUpdated event.ID (getMailboxName event.Label))
        user.queues user.updateCh.values = some user'.queues ∧
      user'.updateCh = user.updateCh ∧
      user'.apiLabels = user.apiLabels.insert event.Label.ID event.Label ∧
      user'.apiAddrs = user.apiAddrs ∧ user'.apiUser = user.apiUser ∧
      user'.vault = user.vault ∧ user'.remoteCalls = user.remoteCalls ∧
      ∃ uid, user'.eventCh =
        user.eventCh ++ [.UserLabelUpdated uid event.Label.ID event.Label.Name] := by
  unfold handleUpdateLabelEvent at h
  by_cases hs : (user.apiLabels.lookup event.Label.ID).isSome = true
  · simp only [hs] at h
    rcases hr : rangeEnqueue (.MailboxUpdated event.ID (getMailboxName event.Label))
      user.queues user.updateCh.values with _ | qs
    · simp [hr] at h
    · simp [hr] at h
      subst h
      exact ⟨AList.lookup_isSome.mp hs, rfl, rfl, rfl, rfl, rfl, rfl, rfl, _, rfl⟩
  · simp [hs] at h

theorem handleDeleteLabelEvent_ok {env : Env} {user user' : User} {event : liteapi.LabelEvent}
    (h : handleDeleteLabelEvent env user event = .ok user') :
    ∃ label, user.apiLabels.lookup event.ID = some label ∧
      rangeEnqueue (.MailboxDeleted event.ID) user.queues user.updateCh.values =
        some user'.queues ∧
      user'.updateCh = user.updateCh ∧
      user'.apiLabels = user.apiLabels.erase event.ID ∧
      user'.apiAddrs = user.apiAddrs ∧ user'.apiUser = user.apiUser ∧
      user'.vault = user.vault ∧ user'.remoteCalls = user.remoteCalls ∧
      ∃ uid, user'.eventCh = user.eventCh ++ [.UserLabelDeleted uid event.ID label.Name] := by
  unfold handleDeleteLabelEvent at h
  rcases hl : user.apiLabels.lookup event.ID with _ | label
  · simp [hl] at h
  · simp only [hl] at h
    rcases hr : rangeEnqueue (.MailboxDeleted event.ID) user.queues user.updateCh.values
      with _ | qs
    · simp [hr] at h
    · simp [hr] at h
      subst h
      exact ⟨label, rfl, rfl, rfl, rfl, rfl, rfl, rfl, rfl, _, rfl⟩

theorem handleCreateLabelEvent_isOk (env : Env) (user : User) (event : liteapi.LabelEvent)
    (hnew : event.Label.ID ∉ user.apiLabels)
    (hl : ∀ p ∈ user.updateCh.values, live user.queues p = true) :
    ∃ user', handleCreateLabelEvent env user event = .ok user' := by
  have hs : (user.apiLabels.lookup event.Label.ID).isSome = false := by
    simp [AList.lookup_eq_none.mpr hnew]
  obtain ⟨qs, hq⟩ := rangeEnqueue_isSome
    (newMailboxCreatedUpdate event.ID (getMailboxName event.Label)) _ _ hl
  simp [handleCreateLabelEvent, hs, hq]

theorem handleUpdateLabelEvent_isOk (env : Env) (user : User) (event : liteapi.LabelEvent)
    (hold : event.Label.ID ∈ user.apiLabels)
    (hl : ∀ p ∈ user.updateCh.values, live user.queues p = true) :
    ∃ user', handleUpdateLabelEvent env user event = .ok user' := by
  have hs : (user.apiLabels.lookup event.Label.ID).isSome = true :=
    AList.lookup_isSome.mpr hold
  obtain ⟨qs, hq⟩ := rangeEnqueue_isSome
    (.MailboxUpdated event.ID (getMailboxName event.Label)) _ _ hl
  simp [handleUpdateLabelEvent, hs, hq]

theorem handleDeleteLabelEvent_isOk (env : Env) (user : User) (event : liteapi.LabelEvent)
    (hold : event.ID ∈ user.apiLabels)
    (hl : ∀ p ∈ user.updateCh.values, live user.queues p = true) :
    ∃ user', handleDeleteLabelEvent env user event = .ok user' := by
  have hs : (user.apiLabels.lookup event.ID).isSome = true := AList.lookup_isSome.mpr hold
  obtain ⟨label, hlabel⟩ := Option.isSome_iff_exists.mp hs
  obtain ⟨qs, hq⟩ := rangeEnqueue_isSome (.MailboxDeleted event.ID) _ _ hl
  simp [handleDeleteLabelEvent, hlabel, hq]

theorem count_ptr_of_nodup (ps : List Ptr) (p : Ptr) (hnd : ps.Nodup) (hp : p ∈ ps) :
    ps.count p = 1 := by
  induction ps with
  | nil => simp at hp
  | cons a l ih =>
    obtain ⟨ha, hl⟩ := List.nodup_cons.mp hnd
    rcases List.mem_cons.mp hp with rfl | hp
    · simp [List.count_cons, List.count_eq_zero_of_not_mem ha]
    · have hne : ¬ a = p := fun e => ha (e ▸ hp)
      simp [List.count_cons, ih hl hp, hne]

theorem rangeEnqueue_appended (x : imap.Update) (user user' : User)
    (hus : user.registryUsable)
    (hr : rangeEnqueue x user.queues user.updateCh.values = some user'.queues)
    (k : String) (h : Nat) (hk : user.updateCh.lookup k = some (some h)) :
    AppendedTo user user' h (List.replicate (user.updateCh.values.count (some h)) x) := by
  obtain ⟨-, -, hget⟩ := rangeEnqueue_getElem? x _ _ _ hr
  obtain ⟨h0, q, he, hq, hopen⟩ := usable_iff.mp (hus _ (mem_values_of_lookup hk))
  obtain rfl : h = h0 := by simpa using he
  refine ⟨q, hq, ?_⟩
  rw [hget h, hq, Option.map_some', EnqueueN_open _ _ _ hopen, hopen]

theorem rangeEnqueue_broadcastOnce (x : imap.Update) (user user' : User)
    (hnd : user.updateCh.values.Nodup) (hus : user.registryUsable)
    (hr : rangeEnqueue x user.queues user.updateCh.values = some user'.queues)
    (hreg : user'.updateCh = user.updateCh) : BroadcastOnce user user' x := by
  obtain ⟨-, hlen, hget⟩ := rangeEnqueue_getElem? x _ _ _ hr
  refine ⟨hreg, hlen, ?_, ?_⟩
  · intro k h hk
    have := rangeEnqueue_appended x user user' hus hr k h hk
    rwa [count_ptr_of_nodup _ _ hnd (mem_values_of_lookup hk)] at this
  · intro h hh
    rw [hget h, List.count_eq_zero_of_not_mem hh]
    cases user.queues[h]? <;> simp [EnqueueN_zero]

theorem two_le_count_values (m : GoMap Ptr) (A B : String) (p : Ptr)
    (hA : m.lookup A = some p) (hB : m.lookup B = some p) (hAB : A ≠ B) :
    2 ≤ m.values.count p := by
  have hA' : (⟨A, p⟩ : Sigma fun _ : String => Ptr) ∈ m.entries := AList.mem_lookup_iff.mp hA
  have hB' : (⟨B, p⟩ : Sigma fun _ : String => Ptr) ∈ m.entries := AList.mem_lookup_iff.mp hB
  unfold GoMap.values
  generalize m.entries = l at hA' hB'
  induction l with
  | nil => simp at hA'
  | cons e l ih =>
    have hpos : ∀ k : String, (⟨k, p⟩ : Sigma fun _ : String => Ptr) ∈ l →
        1 ≤ (l.map Sigma.snd).count p := fun k hk =>
      List.count_pos_iff.mpr (List.mem_map.mpr ⟨_, hk, rfl⟩)
    rcases List.mem_cons.mp hA' with ha | ha <;> rcases List.mem_cons.mp hB' with hb | hb
    · exact absurd (congrArg Sigma.fst (ha.trans hb.symm)) hAB
    · have := hpos B hb
      subst ha
      simp only [List.map_cons, List.count_cons_self]
      omega
    · have := hpos A ha
      subst hb
      simp only [List.map_cons, List.count_cons_self]
      omega
    · have := ih ha hb
      simp only [List.map_cons, List.count_cons]
      omega

/-- C10: in a state whose registry entries are pairwise distinct usable queues,
a label create (identifier absent), update (identifier present) or delete
(identifier present) event succeeds, inserts, replaces or removes the label in
the label table, and appends exactly one update at the tail of each queue that
is in the registry at that moment: mailbox-created, respectively
mailbox-updated, carrying the event identifier and the name derived by
`getMailboxName`, respectively mailbox-deleted carrying the identifier.  The
registry is unchanged, no queue is allocated and every queue outside the
registry is unchanged, so a queue registered later holds nothing from the event. -/
theorem label_event_broadcast (env : Env) (user : User) (event : liteapi.LabelEvent)
    (hnd : user.updateCh.values.Nodup) (hus : user.registryUsable) :
    (event.Label.ID ∉ user.apiLabels →
      ∃ user', handleCreateLabelEvent env user event = .ok user' ∧
        user'.apiLabels = user.apiLabels.insert event.Label.ID event.Label ∧
        BroadcastOnce user user' (.MailboxCreated event.ID (getMailboxName event.Label))) ∧
    (event.Label.ID ∈ user.apiLabels →
      ∃ user', handleUpdateLabelEvent env user event = .ok user' ∧
        user'.apiLabels = user.apiLabels.insert event.Label.ID event.Label ∧
        BroadcastOnce user user' (.MailboxUpdated event.ID (getMailboxName event.Label))) ∧
    (event.ID ∈ user.apiLabels →
      ∃ user', handleDeleteLabelEvent env user event = .ok user' ∧
        user'.apiLabels = user.apiLabels.erase event.ID ∧
        BroadcastOnce user user' (.MailboxDeleted event.ID)) := by
  have hl : ∀ p ∈ user.updateCh.values, live user.queues p = true :=
    fun p hp => usable_live (hus p hp)
  refine ⟨fun hnew => ?_, fun hold => ?_, fun hold => ?_⟩
  · obtain ⟨user', hok⟩ := handleCreateLabelEvent_isOk env user event hnew hl
    obtain ⟨-, hr, hreg, hlab, -⟩ := handleCreateLabelEvent_ok hok
    exact ⟨user', hok, hlab, rangeEnqueue_broadcastOnce _ user user' hnd hus hr hreg⟩
  · obtain ⟨user', hok⟩ := handleUpdateLabelEvent_isOk env user event hold hl
    obtain ⟨-, hr, hreg, hlab, -⟩ := handleUpdateLabelEvent_ok hok
    exact ⟨user', hok, hlab, rangeEnqueue_broadcastOnce _ user user' hnd hus hr hreg⟩
  · obtain ⟨user', hok⟩ := handleDeleteLabelEvent_isOk env user event hold hl
    obtain ⟨label, -, hr, hreg, hlab, -⟩ := handleDeleteLabelEvent_ok hok
    exact ⟨user', hok, hlab, rangeEnqueue_broadcastOnce _ user user' hnd hus hr hreg⟩

/-- Witness of C10: two addresses with their own queues; label M is created,
label L is updated and label L is deleted. -/
theorem label_event_broadcast_witness :
    demoTwoQueues.updateCh.values.Nodup ∧ demoTwoQueues.registryUsable ∧
    (∃ user', handleCreateLabelEvent demoEnv demoTwoQueues ⟨"M", .EventCreate, labelOther⟩ =
        .ok user' ∧
      user'.apiLabels = demoTwoQueues.apiLabels.insert "M" labelOther ∧
      BroadcastOnce demoTwoQueues user' (.MailboxCreated "M" (getMailboxName labelOther))) ∧
    (∃ user', handleUpdateLabelEvent demoEnv demoTwoQueues ⟨"L", .EventUpdate, labelWork⟩ =
        .ok user' ∧
      user'.apiLabels = demoTwoQueues.apiLabels.insert "L" labelWork ∧
      BroadcastOnce demoTwoQueues user' (.MailboxUpdated "L" (getMailboxName labelWork))) ∧
    (∃ user', handleDeleteLabelEvent demoEnv demoTwoQueues ⟨"L", .EventDelete, labelWork⟩ =
        .ok user' ∧
      user'.apiLabels = demoTwoQueues.apiLabels.erase "L" ∧
      BroadcastOnce demoTwoQueues user' (.MailboxDeleted "L")) :=
  ⟨by decide, by decide,
    (label_event_broadcast demoEnv demoTwoQueues ⟨"M", .EventCreate, labelOther⟩
      (by decide) (by decide)).1 (by decide),
    (label_event_broadcast demoEnv demoTwoQueues ⟨"L", .EventUpdate, labelWork⟩
      (by decide) (by decide)).2.1 (by decide),
    (label_event_broadcast demoEnv demoTwoQueues ⟨"L", .EventDelete, labelWork⟩
      (by decide) (by decide)).2.2 (by decide)⟩

/-- C3, as stated, fails: with the primary address A and address B registered
against the same queue 0 in Combined mode, a label create, update or delete
event appends two mailbox updates to that queue, one per registry entry, and
not exactly one. -/
theorem label_event_shared_queue_counterexample :
    demoShared.vault.AddressMode = .CombinedMode ∧
    demoShared.updateCh.lookup "A" = some (some 0) ∧
    demoShared.updateCh.lookup "B" = some (some 0) ∧
    demoShared.queues[0]? = some ⟨[], false⟩ ∧
    (∃ user', handleCreateLabelEvent demoEnv demoShared ⟨"M", .EventCreate, labelOther⟩ =
        .ok user' ∧
      user'.queues[0]? =
        some ⟨[.MailboxCreated "M" ["Inbox"], .MailboxCreated "M" ["Inbox"]], false⟩ ∧
      user'.queues[0]? ≠ some ⟨[.MailboxCreated "M" ["Inbox"]], false⟩) ∧
    (∃ user', handleUpdateLabelEvent demoEnv demoShared ⟨"L", .EventUpdate, labelWork⟩ =
        .ok user' ∧
      user'.queues[0]? =
        some ⟨[.MailboxUpdated "L" ["Folders", "Work", "2024"],
          .MailboxUpdated "L" ["Folders", "Work", "2024"]], false⟩ ∧
      user'.queues[0]? ≠ some ⟨[.MailboxUpdated "L" ["Folders", "Work", "2024"]], false⟩) ∧
    (∃ user', handleDeleteLabelEvent demoEnv demoShared ⟨"L", .EventDelete, labelWork⟩ =
        .ok user' ∧
      user'.queues[0]? = some ⟨[.MailboxDeleted "L", .MailboxDeleted "L"], false⟩ ∧
      user'.queues[0]? ≠ some ⟨[.MailboxDeleted "L"], false⟩) := by
  refine ⟨by decide, by decide, by decide, by decide, ⟨_, rfl, by decide, by decide⟩,
    ⟨_, rfl, by decide, by decide⟩, ⟨_, rfl, by decide, by decide⟩⟩

/-- C3, amended: when the addresses A and B are registered against the same
shared queue and every registry entry is a usable queue, a label create, update
or delete event succeeds and appends to that shared queue one copy of the
mailbox update per registry entry that refers to it, hence at least two copies
and not one. -/
theorem label_event_shared_queue (env : Env) (user : User) (event : liteapi.LabelEvent)
    (A B : String) (h : Nat) (hus : user.registryUsable)
    (hA : user.updateCh.lookup A = some (some h))
    (hB : user.updateCh.lookup B = some (some h)) (hAB : A ≠ B) :
    ∃ n, 2 ≤ n ∧ n = user.updateCh.values.count (some h) ∧
      (event.Label.ID ∉ user.apiLabels →
        ∃ user', handleCreateLabelEvent env user event = .ok user' ∧
          AppendedTo user user' h
            (List.replicate n (.MailboxCreated event.ID (getMailboxName event.Label)))) ∧
      (event.Label.ID ∈ user.apiLabels →
        ∃ user', handleUpdateLabelEvent env user event = .ok user' ∧
          AppendedTo user user' h
            (List.replicate n (.MailboxUpdated event.ID (getMailboxName event.Label)))) ∧
      (event.ID ∈ user.apiLabels →
        ∃ user', handleDeleteLabelEvent env user event = .ok user' ∧
          AppendedTo user user' h (List.replicate n (.MailboxDeleted event.ID))) := by
  have hl : ∀ p ∈ user.updateCh.values, live user.queues p = true :=
    fun p hp => usable_live (hus p hp)
  refine ⟨_, two_le_count_values _ A B _ hA hB hAB, rfl, fun hnew => ?_, fun hold => ?_,
    fun hold => ?_⟩
  · obtain ⟨user', hok⟩ := handleCreateLabelEvent_isOk env user event hnew hl
    obtain ⟨-, hr, -⟩ := handleCreateLabelEvent_ok hok
    exact ⟨user', hok, rangeEnqueue_appended _ user user' hus hr A h hA⟩
  · obtain ⟨user', hok⟩ := handleUpdateLabelEvent_isOk env user event hold hl
    obtain ⟨-, hr, -⟩ := handleUpdateLabelEvent_ok hok
    exact ⟨user', hok, rangeEnqueue_appended _ user user' hus hr A h hA⟩
  · obtain ⟨user', hok⟩ := handleDeleteLabelEvent_isOk env user event hold hl
    obtain ⟨label, -, hr, -⟩ := handleDeleteLabelEvent_ok hok
    exact ⟨user', hok, rangeEnqueue_appended _ user user' hus hr A h hA⟩

/-- Witness of C3, amended: A and B share queue 0, which receives two copies. -/
theorem label_event_shared_queue_witness :
    demoShared.registryUsable ∧
    ∃ n, 2 ≤ n ∧ n = demoShared.updateCh.values.count (some 0) ∧
      (∃ user', handleCreateLabelEvent demoEnv demoShared ⟨"M", .EventCreate, labelOther⟩ =
          .ok user' ∧
        AppendedTo demoShared user' 0
          (List.replicate n (.MailboxCreated "M" (getMailboxName labelOther)))) ∧
      (∃ user', handleUpdateLabelEvent demoEnv demoShared ⟨"L", .EventUpdate, labelWork⟩ =
          .ok user' ∧
        AppendedTo demoShared user' 0
          (List.replicate n (.MailboxUpdated "L" (getMailboxName labelWork)))) ∧
      (∃ user', handleDeleteLabelEvent demoEnv demoShared ⟨"L", .EventDelete, labelWork⟩ =
          .ok user' ∧
        AppendedTo demoShared user' 0 (List.replicate n (.MailboxDeleted "L"))) := by
  refine ⟨by decide, ?_⟩
  obtain ⟨n, h2, hn, h1⟩ := label_event_shared_queue demoEnv demoShared
    ⟨"M", .EventCreate, labelOther⟩ "A" "B" 0 (by decide) (by decide) (by decide) (by decide)
  obtain ⟨n', -, hn', h3⟩ := label_event_shared_queue demoEnv demoShared
    ⟨"L", .EventUpdate, labelWork⟩ "A" "B" 0 (by decide) (by decide) (by decide) (by decide)
  have e : n' = n := hn'.trans hn.symm
  rw [e] at h3
  exact ⟨n, h2, hn, h1.1 (by decide), h3.2.1 (by decide), h3.2.2 (by decide)⟩

/-! ## Creating an address in Split mode -/

theorem set_of_getElem? {qs : List QueuedChannel} {h : Nat} {q : QueuedChannel}
    (hq : qs[h]? = some q) : qs.set h q = qs := by
  apply List.ext_getElem?
  intro i
  by_cases hi : h = i
  · subst hi
    simp [(List.getElem?_eq_some.mp hq).1, hq]
  · rw [List.getElem?_set_ne hi]

theorem enqueueAll_open (h : Nat) :
    ∀ (xs : List imap.Update) (qs : List QueuedChannel) (q : QueuedChannel),
      qs[h]? = some q → q.closed = false →
      enqueueAll (some h) qs xs = some (qs.set h ⟨q.items ++ xs, false⟩) := by
  intro xs
  induction xs with
  | nil =>
    intro qs q hq hopen
    have : (⟨q.items ++ [], false⟩ : QueuedChannel) = q := by
      cases q; simp_all
    simp only [enqueueAll, this, set_of_getElem? hq]
  | cons x xs ih =>
    intro qs q hq hopen
    have hlt : h < qs.length := (List.getElem?_eq_some.mp hq).1
    have hE : Enqueue qs (some h) x = some (qs.set h (q.Enqueue x)) :=
      Enqueue_eq_some.mpr ⟨h, q, rfl, hq, rfl⟩
    have hq1 : (qs.set h (q.Enqueue x))[h]? = some (q.Enqueue x) := by simp [hlt]
    have hopen1 : (q.Enqueue x).closed = false := by rw [Enqueue_closed]; exact hopen
    have := ih (qs.set h (q.Enqueue x)) (q.Enqueue x) hq1 hopen1
    simp only [enqueueAll, hE, this, List.set_set]
    simp [QueuedChannel.Enqueue, hopen]

theorem syncLabels_new (env : Env) (user : User) (labels : List liteapi.Label)
    (hfetch : env.GetLabels user.remoteCalls = .ok labels) (qs : List QueuedChannel)
    (hqs : user.queues = qs ++ [NewQueuedChannel]) :
    syncLabels env user (some qs.length) =
      .ok { user with
        remoteCalls := user.remoteCalls + 1
        queues := qs ++ [⟨bootstrapUpdates labels, false⟩] } := by
  have hq : (qs ++ [NewQueuedChannel])[qs.length]? = some NewQueuedChannel := by simp
  have := enqueueAll_open qs.length (bootstrapUpdates labels) _ _ hq rfl
  simp only [NewQueuedChannel, List.nil_append] at this
  simp [syncLabels, hfetch, hqs, bootstrapUpdates, NewQueuedChannel] at this ⊢
  simp [this]

theorem count_new_pointer (m : GoMap Ptr) (k : String) (n : Nat)
    (hheap : ∀ p ∈ m.values, p ≠ some n) :
    (GoMap.values (m.insert k (some n))).count (some n) = 1 := by
  unfold GoMap.values
  rw [AList.insert_entries]
  have hnot : (some n : Ptr) ∉ (List.kerase k m.entries).map Sigma.snd := by
    intro hmem
    obtain ⟨e, he, hp⟩ := List.mem_map.mp hmem
    have he' : e ∈ m.entries := (List.kerase_sublist k m.entries).subset he
    exact hheap _ (List.mem_map.mpr ⟨e, he', rfl⟩) hp
  simp [List.count_cons, List.count_eq_zero_of_not_mem hnot]

/-- C8: in Split mode, with a registry whose entries are nil or allocated
queues, a create event for an address B that is not in the address table and
whose label-snapshot fetch succeeds, succeeds; the registry entry of B is a newly
allocated queue (a cell the heap did not have before), distinct from the queue
of every other address, and its contents are exactly the mailbox-created updates
equivalent to the fetched snapshot; after a subsequently applied label create,
update or delete event these updates still come first, followed by the update of
that event. -/
theorem handleCreateAddressEvent_split (env : Env) (user : User)
    (event : liteapi.AddressEvent) (labels : List liteapi.Label)
    (hmode : user.vault.AddressMode = .SplitMode)
    (hnew : event.Address.ID ∉ user.apiAddrs)
    (hfetch : env.GetLabels user.remoteCalls = .ok labels)
    (hheap : ∀ p ∈ user.updateCh.values, p = none ∨ live user.queues p = true) :
    ∃ user', handleCreateAddressEvent env user event = .ok user' ∧
      user'.apiAddrs.lookup event.Address.ID = some event.Address ∧
      user'.updateCh.lookup event.Address.ID = some (some user.queues.length) ∧
      user'.queues.length = user.queues.length + 1 ∧
      (∀ k, k ≠ event.Address.ID → user'.updateCh.lookup k = user.updateCh.lookup k ∧
        user'.updateCh.lookup k ≠ some (some user.queues.length)) ∧
      (∀ h : Nat, h < user.queues.length → user'.queues[h]? = user.queues[h]?) ∧
      user'.queues[user.queues.length]? = some ⟨bootstrapUpdates labels, false⟩ ∧
      (∀ lev user'', handleCreateLabelEvent env user' lev = .ok user'' →
        user''.queues[user.queues.length]? = some ⟨bootstrapUpdates labels ++
          [.MailboxCreated lev.ID (getMailboxName lev.Label)], false⟩) ∧
      (∀ lev user'', handleUpdateLabelEvent env user' lev = .ok user'' →
        user''.queues[user.queues.length]? = some ⟨bootstrapUpdates labels ++
          [.MailboxUpdated lev.ID (getMailboxName lev.Label)], false⟩) ∧
      (∀ lev user'', handleDeleteLabelEvent env user' lev = .ok user'' →
        user''.queues[user.queues.length]? = some ⟨bootstrapUpdates labels ++
          [.MailboxDeleted lev.ID], false⟩) := by
  have hs : (user.apiAddrs.lookup event.Address.ID).isSome = false := by
    simp [AList.lookup_eq_none.mpr hnew]
  have hfresh : ∀ p ∈ user.updateCh.values, p ≠ some user.queues.length := by
    intro p hp he
    rcases hheap p hp with h | h
    · rw [h] at he; cases he
    · obtain ⟨h', hp', hlt⟩ := live_iff.mp h
      rw [hp'] at he
      have : h' = user.queues.length := by simpa using he
      omega
  have key : ∃ user', handleCreateAddressEvent env user event = .ok user' ∧
      user'.apiAddrs = user.apiAddrs.insert event.Address.ID event.Address ∧
      user'.updateCh = user.updateCh.insert event.Address.ID (some user.queues.length) ∧
      user'.queues = user.queues ++ [⟨bootstrapUpdates labels, false⟩] := by
    simp [handleCreateAddressEvent, hs, hmode, Result.wrapErr, Result.andThen,
      GoMap.index, AList.lookup_insert]
    rw [syncLabels_new env _ labels _ user.queues _]
    · exact ⟨_, rfl, rfl, rfl, rfl⟩
    · exact hfetch
    · rfl
  obtain ⟨user', h1, h2, h3, h4⟩ := key
  have hcount : user'.updateCh.values.count (some user.queues.length) = 1 := by
    rw [h3]; exact count_new_pointer _ _ _ hfresh
  have hq' : user'.queues[user.queues.length]? = some ⟨bootstrapUpdates labels, false⟩ := by
    rw [h4]; simp
  have after : ∀ (x : imap.Update) (user'' : User),
      rangeEnqueue x user'.queues user'.updateCh.values = some user''.queues →
      user''.queues[user.queues.length]? = some ⟨bootstrapUpdates labels ++ [x], false⟩ := by
    intro x user'' hr
    obtain ⟨-, -, hget⟩ := rangeEnqueue_getElem? x _ _ _ hr
    rw [hget, hq', hcount, Option.map_some', EnqueueN_open _ _ _ rfl]
    rfl
  refine ⟨user', h1, ?_, ?_, ?_, ?_, ?_, hq', ?_, ?_, ?_⟩
  · rw [h2, AList.lookup_insert]
  · rw [h3, AList.lookup_insert]
  · rw [h4]; simp
  · intro k hk
    have hl : user'.updateCh.lookup k = user.updateCh.lookup k := by
      rw [h3, AList.lookup_insert_ne hk]
    refine ⟨hl, fun he => ?_⟩
    rw [hl] at he
    exact hfresh _ (mem_values_of_lookup he) rfl
  · intro h hlt
    rw [h4, List.getElem?_append_left hlt]
  · intro lev user'' hok
    exact after _ user'' (handleCreateLabelEvent_ok hok).2.1
  · intro lev user'' hok
    exact after _ user'' (handleUpdateLabelEvent_ok hok).2.1
  · intro lev user'' hok
    obtain ⟨label, -, hr, -⟩ := handleDeleteLabelEvent_ok hok
    exact after _ user'' hr

/-- Witness of C8: address B is created next to address A, whose queue is
queue 0; the snapshot holds the folder Work/2024. -/
theorem handleCreateAddressEvent_split_witness :
    demoSplit.vault.AddressMode = .SplitMode ∧ addrB.ID ∉ demoSplit.apiAddrs ∧
    (∀ p ∈ demoSplit.updateCh.values, p = none ∨ live demoSplit.queues p = true) ∧
    ∃ user', handleCreateAddressEvent demoEnv demoSplit ⟨"B", .EventCreate, addrB⟩ =
        .ok user' ∧
      user'.apiAddrs.lookup "B" = some addrB ∧
      user'.updateCh.lookup "B" = some (some demoSplit.queues.length) ∧
      user'.queues.length = demoSplit.queues.length + 1 ∧
      (∀ k, k ≠ "B" → user'.updateCh.lookup k = demoSplit.updateCh.lookup k ∧
        user'.updateCh.lookup k ≠ some (some demoSplit.queues.length)) ∧
      (∀ h : Nat, h < demoSplit.queues.length → user'.queues[h]? = demoSplit.queues[h]?) ∧
      user'.queues[demoSplit.queues.length]? =
        some ⟨bootstrapUpdates [⟨"F", "2024", ["Work", "2024"], liteapi.LabelTypeFolder⟩],
          false⟩ ∧
      (∀ lev user'', handleCreateLabelEvent demoEnv user' lev = .ok user'' →
        user''.queues[demoSplit.queues.length]? = some
          ⟨bootstrapUpdates [⟨"F", "2024", ["Work", "2024"], liteapi.LabelTypeFolder⟩] ++
            [.MailboxCreated lev.ID (getMailboxName lev.Label)], false⟩) ∧
      (∀ lev user'', handleUpdateLabelEvent demoEnv user' lev = .ok user'' →
        user''.queues[demoSplit.queues.length]? = some
          ⟨bootstrapUpdates [⟨"F", "2024", ["Work", "2024"], liteapi.LabelTypeFolder⟩] ++
            [.MailboxUpdated lev.ID (getMailboxName lev.Label)], false⟩) ∧
      (∀ lev user'', handleDeleteLabelEvent demoEnv user' lev = .ok user'' →
        user''.queues[demoSplit.queues.length]? = some
          ⟨bootstrapUpdates [⟨"F", "2024", ["Work", "2024"], liteapi.LabelTypeFolder⟩] ++
            [.MailboxDeleted lev.ID], false⟩) :=
  ⟨by decide, by decide, by decide,
    handleCreateAddressEvent_split demoEnv demoSplit ⟨"B", .EventCreate, addrB⟩
      [⟨"F", "2024", ["Work", "2024"], liteapi.LabelTypeFolder⟩]
      (by decide) (by decide) rfl (by decide)⟩

/-! ## Batches -/

theorem Result.sim_refl (r : Result) : r.sim r := by
  cases r <;> simp [Result.sim]

theorem Result.sim_wrapErr (msg : String) (r : Result) : (r.wrapErr msg).sim r := by
  cases r <;> simp [Result.sim, Result.wrapErr, Error.root]

theorem Result.sim_andThen {r1 r2 : Result} {k1 k2 : User → Result} (h : r1.sim r2)
    (hk : ∀ u, (k1 u).sim (k2 u)) : (r1.andThen k1).sim (r2.andThen k2) := by
  cases r1 <;> cases r2 <;> simp_all [Result.sim, Result.andThen]

theorem Result.andThen_assoc (r : Result) (k1 k2 : User → Result) :
    (r.andThen k1).andThen k2 = r.andThen fun u => (k1 u).andThen k2 := by
  cases r <;> rfl

theorem Result.sim_ok {r : Result} {u : User} (h : r.sim (.ok u)) : r = .ok u := by
  cases r <;> simp_all [Result.sim]

theorem Result.sim_err {r : Result} {e : Error} {u : User} (h : r.sim (.err e u)) :
    ∃ e', r = .err e' u ∧ e'.root = e.root := by
  cases r <;> simp_all [Result.sim]

theorem Result.sim_of_err {r r' : Result} {e : Error} {u : User} (h : r.sim r')
    (hr : r = .err e u) : ∃ e', r' = .err e' u ∧ e.root = e'.root := by
  subst hr
  cases r' <;> simp_all [Result.sim]

theorem applyUntil_append (env : Env) :
    ∀ (l1 l2 : List SubEvent) (user : User),
      applyUntil env user (l1 ++ l2) =
        (applyUntil env user l1).andThen fun u => applyUntil env u l2 := by
  intro l1
  induction l1 with
  | nil => intro l2 user; rfl
  | cons e es ih =>
    intro l2 user
    simp only [List.cons_append, applyUntil]
    cases applySubEvent env user e with
    | ok u => exact ih l2 u
    | err e u => rfl
    | panic => rfl

theorem applyUntil_ok_iff (env : Env) :
    ∀ (l : List SubEvent) (user user' : User),
      applyUntil env user l = .ok user' ↔ applyAll env user l = some user' := by
  intro l
  induction l with
  | nil => intro user user'; simp [applyUntil, applyAll]
  | cons e es ih =>
    intro user user'
    simp only [applyUntil, applyAll]
    cases applySubEvent env user e with
    | ok u => exact ih u user'
    | err e u => simp
    | panic => simp

theorem applyUntil_err (env : Env) :
    ∀ (l : List SubEvent) (user user' : User) (e : Error),
      applyUntil env user l = .err e user' →
      ∃ pre failing post u0, l = pre ++ failing :: post ∧ applyAll env user pre = some u0 ∧
        applySubEvent env u0 failing = .err e user' := by
  intro l
  induction l with
  | nil => intro user user' e h; simp [applyUntil] at h
  | cons x xs ih =>
    intro user user' e h
    simp only [applyUntil] at h
    cases hx : applySubEvent env user x with
    | ok u =>
      rw [hx] at h
      obtain ⟨pre, failing, post, u0, hl, hall, hf⟩ := ih u user' e h
      refine ⟨x :: pre, failing, post, u0, by rw [hl]; rfl, ?_, hf⟩
      simp only [applyAll, hx]
      exact hall
    | err e1 u =>
      rw [hx] at h
      refine ⟨[], x, xs, user, rfl, rfl, ?_⟩
      rw [hx]; exact h
    | panic => rw [hx] at h; cases h

theorem handleAddressEvents_sim (env : Env) :
    ∀ (events : List liteapi.AddressEvent) (user : User),
      (handleAddressEvents env user events).sim
        (applyUntil env user (events.map .address)) := by
  intro events
  induction events with
  | nil => intro user; simp [handleAddressEvents, applyUntil, Result.sim]
  | cons ev evs ih =>
    intro user
    simp only [handleAddressEvents, List.map_cons, applyUntil, applySubEvent]
    cases ev.Action
    · cases hr : handleDeleteAddressEvent env user ev with
      | ok u => simpa only [Result.wrapErr] using ih u
      | err e u => simp [Result.wrapErr, Result.sim, Error.root]
      | panic => simp [Result.wrapErr, Result.sim]
    · cases hr : handleCreateAddressEvent env user ev with
      | ok u => simpa only [Result.wrapErr] using ih u
      | err e u => simp [Result.wrapErr, Result.sim, Error.root]
      | panic => simp [Result.wrapErr, Result.sim]
    · cases hr : handleUpdateAddressEvent env user ev with
      | ok u => simpa only [Result.wrapErr] using ih u
      | err e u => simp [Result.wrapErr, Result.sim, Error.root]
      | panic => simp [Result.wrapErr, Result.sim]
    · cases hr : handleUpdateAddressEvent env user ev with
      | ok u => simpa only [Result.wrapErr] using ih u
      | err e u => simp [Result.wrapErr, Result.sim, Error.root]
      | panic => simp [Result.wrapErr, Result.sim]

theorem handleLabelEvents_sim (env : Env) :
    ∀ (events : List liteapi.LabelEvent) (user : User),
      (handleLabelEvents env user events).sim
        (applyUntil env user (events.map .label)) := by
  intro events
  induction events with
  | nil => intro user; simp [handleLabelEvents, applyUntil, Result.sim]
  | cons ev evs ih =>
    intro user
    simp only [handleLabelEvents, List.map_cons, applyUntil, applySubEvent]
    cases ev.Action
    · cases hr : handleDeleteLabelEvent env user ev with
      | ok u => simpa only [Result.wrapErr] using ih u
      | err e u => simp [Result.wrapErr, Result.sim, Error.root]
      | panic => simp [Result.wrapErr, Result.sim]
    · cases hr : handleCreateLabelEvent env user ev with
      | ok u => simpa only [Result.wrapErr] using ih u
      | err e u => simp [Result.wrapErr, Result.sim, Error.root]
      | panic => simp [Result.wrapErr, Result.sim]
    · cases hr : handleUpdateLabelEvent env user ev with
      | ok u => simpa only [Result.wrapErr] using ih u
      | err e u => simp [Result.wrapErr, Result.sim, Error.root]
      | panic => simp [Result.wrapErr, Result.sim]
    · cases hr : handleUpdateLabelEvent env user ev with
      | ok u => simpa only [Result.wrapErr] using ih u
      | err e u => simp [Result.wrapErr, Result.sim, Error.root]
      | panic => simp [Result.wrapErr, Result.sim]

theorem handleMessageEvents_sim (env : Env) :
    ∀ (events : List liteapi.MessageEvent) (user : User),
      (handleMessageEvents env user events).sim
        (applyUntil env user (events.map .message)) := by
  intro events
  induction events with
  | nil => intro user; simp [handleMessageEvents, applyUntil, Result.sim]
  | cons ev evs ih =>
    intro user
    simp only [handleMessageEvents, List.map_cons, applyUntil, applySubEvent]
    cases ev.Action
    · cases hr : handleDeleteMessageEvent env user ev with
      | ok u => simpa only [Result.wrapErr] using ih u
      | err e u => simp [Result.wrapErr, Result.sim, Error.root]
      | panic => simp [Result.wrapErr, Result.sim]
    · cases hr : handleCreateMessageEvent env user ev with
      | ok u => simpa only [Result.wrapErr] using ih u
      | err e u => simp [Result.wrapErr, Result.sim, Error.root]
      | panic => simp [Result.wrapErr, Result.sim]
    · cases hr : handleUpdateMessageEvent env user ev with
      | ok u => simpa only [Result.wrapErr] using ih u
      | err e u => simp [Result.wrapErr, Result.sim, Error.root]
      | panic => simp [Result.wrapErr, Result.sim]
    · cases hr : handleUpdateMessageEvent env user ev with
      | ok u => simpa only [Result.wrapErr] using ih u
      | err e u => simp [Result.wrapErr, Result.sim, Error.root]
      | panic => simp [Result.wrapErr, Result.sim]

theorem handleAPIEvent_sim (env : Env) (user : User) (event : liteapi.Event) :
    (handleAPIEvent env user event).sim (applyUntil env user (subEvents event)) := by
  have gA : ∀ u, (if event.Addresses.length > 0 then handleAddressEvents env u event.Addresses
      else .ok u) = handleAddressEvents env u event.Addresses := by
    intro u
    cases h : event.Addresses <;> simp [handleAddressEvents]
  have gL : ∀ u, (if event.Labels.length > 0 then handleLabelEvents env u event.Labels
      else .ok u) = handleLabelEvents env u event.Labels := by
    intro u
    cases h : event.Labels <;> simp [handleLabelEvents]
  have gM : ∀ u, (if event.Messages.length > 0 then handleMessageEvents env u event.Messages
      else .ok u) = handleMessageEvents env u event.Messages := by
    intro u
    cases h : event.Messages <;> simp [handleMessageEvents]
  unfold handleAPIEvent subEvents
  simp only [gA, gL, gM, applyUntil_append, Result.andThen_assoc]
  refine Result.sim_andThen ?_ fun u => Result.sim_andThen (handleAddressEvents_sim env _ u)
    fun u => Result.sim_andThen (handleLabelEvents_sim env _ u)
      fun u => handleMessageEvents_sim env _ u
  cases event.User with
  | none => simp [applyUntil, Result.sim]
  | some userEvent =>
    simp only [Option.toList, List.map_cons, List.map_nil, applyUntil, applySubEvent]
    cases handleUserEvent env user userEvent <;> simp [Result.sim]

theorem User.sameState_refl (u : User) : u.sameState u :=
  ⟨rfl, rfl, rfl, rfl, rfl, rfl⟩

theorem getAddrIdx_zero_isOk (apiAddrs : GoMap liteapi.Address) (hne : apiAddrs.values ≠ []) :
    ∃ a, getAddrIdx apiAddrs 0 = .ok a := by
  have hlen := List.length_insertionSort (fun a b : liteapi.Address => a.Order ≤ b.Order)
    apiAddrs.values
  unfold getAddrIdx
  generalize List.insertionSort (fun a b : liteapi.Address => a.Order ≤ b.Order)
    apiAddrs.values = sorted at hlen
  cases sorted with
  | nil =>
    have : apiAddrs.values = [] := List.length_eq_zero.mp hlen.symm
    exact absurd this hne
  | cons x tl => exact ⟨x, by simp⟩

theorem handleCreateAddressEvent_err {env : Env} {user user' : User}
    {event : liteapi.AddressEvent} {e : Error}
    (h : handleCreateAddressEvent env user event = .err e user') :
    user' = user ∨ CreatedWithoutBootstrap user user' event := by
  unfold handleCreateAddressEvent at h
  by_cases hs : (user.apiAddrs.lookup event.Address.ID).isSome = true
  · simp [hs, Result.wrapErr, Result.andThen] at h
    exact Or.inl h.2.symm
  · have hnew : event.Address.ID ∉ user.apiAddrs := fun hm => hs (AList.lookup_isSome.mpr hm)
    cases hmode : user.vault.AddressMode with
    | CombinedMode =>
      have hne : GoMap.values (user.apiAddrs.insert event.Address.ID event.Address) ≠ [] := by
        rw [values_insert_of_not_mem _ _ _ hnew]; simp
      obtain ⟨a, ha⟩ := getAddrIdx_zero_isOk _ hne
      simp [hs, hmode, ha, Result.wrapErr, Result.andThen] at h
    | SplitMode =>
      cases hfetch : env.GetLabels user.remoteCalls with
      | error err =>
        simp [hs, hmode, Result.wrapErr, Result.andThen, syncLabels, hfetch] at h
        right
        obtain ⟨-, rfl⟩ := h
        exact ⟨hmode, hnew, rfl, rfl, rfl, rfl, rfl, _, rfl⟩
      | ok labels =>
        simp [hs, hmode, Result.wrapErr, Result.andThen, GoMap.index,
          AList.lookup_insert] at h
        rw [syncLabels_new env _ labels _ user.queues _] at h
        · simp at h
        · exact hfetch
        · rfl

theorem handleUpdateAddressEvent_err {env : Env} {user user' : User}
    {event : liteapi.AddressEvent} {e : Error}
    (h : handleUpdateAddressEvent env user event = .err e user') : user' = user := by
  unfold handleUpdateAddressEvent at h
  split at h <;> simp at h
  exact h.2.symm

theorem handleDeleteAddressEvent_err {env : Env} {user user' : User}
    {event : liteapi.AddressEvent} {e : Error}
    (h : handleDeleteAddressEvent env user event = .err e user') : user' = user := by
  unfold handleDeleteAddressEvent at h
  cases hl : user.apiAddrs.lookup event.ID with
  | none => simp [hl] at h; exact h.2.symm
  | some addr =>
    by_cases hm : user.vault.AddressMode = .SplitMode
    · cases hc : CloseAndDiscardQueued user.queues (user.updateCh.index event.ID none) <;>
        simp [hl, hm, hc] at h
    · simp [hl, hm] at h

theorem handleCreateLabelEvent_err {env : Env} {user user' : User}
    {event : liteapi.LabelEvent} {e : Error}
    (h : handleCreateLabelEvent env user event = .err e user') : user' = user := by
  unfold handleCreateLabelEvent at h
  by_cases hs : (user.apiLabels.lookup event.Label.ID).isSome = true
  · simp [hs] at h; exact h.2.symm
  · rcases hr : rangeEnqueue (newMailboxCreatedUpdate event.ID (getMailboxName event.Label))
      user.queues user.updateCh.values with _ | qs <;> simp [hs, hr] at h

theorem handleUpdateLabelEvent_err {env : Env} {user user' : User}
    {event : liteapi.LabelEvent} {e : Error}
    (h : handleUpdateLabelEvent env user event = .err e user') : user' = user := by
  unfold handleUpdateLabelEvent at h
  by_cases hs : (user.apiLabels.lookup event.Label.ID).isSome = true
  · rcases hr : rangeEnqueue (.MailboxUpdated event.ID (getMailboxName event.Label))
      user.queues user.updateCh.values with _ | qs <;> simp [hs, hr] at h
  · simp [hs] at h; exact h.2.symm

theorem handleDeleteLabelEvent_err {env : Env} {user user' : User}
    {event : liteapi.LabelEvent} {e : Error}
    (h : handleDeleteLabelEvent env user event = .err e user') : user' = user := by
  unfold handleDeleteLabelEvent at h
  rcases hl : user.apiLabels.lookup event.ID with _ | label
  · simp [hl] at h; exact h.2.symm
  · rcases hr : rangeEnqueue (.MailboxDeleted event.ID) user.queues user.updateCh.values
      with _ | qs <;> simp [hl, hr] at h

theorem handleCreateMessageEvent_err {env : Env} {user user' : User}
    {event : liteapi.MessageEvent} {e : Error}
    (h : handleCreateMessageEvent env user event = .err e user') :
    user' = { user with remoteCalls := user.remoteCalls + 1 } := by
  unfold handleCreateMessageEvent withAddrKR at h
  rcases hf : env.GetFullMessage user.remoteCalls event.Message.ID with err | full
  · simp [hf] at h; exact h.2.symm
  · simp only [hf] at h
    split at h
    · simp at h; exact h.2.symm
    · split at h
      · simp at h; exact h.2.symm
      · split at h <;> simp at h

theorem applySubEvent_err {env : Env} {u0 user' : User} {failing : SubEvent} {e : Error}
    (h : applySubEvent env u0 failing = .err e user') :
    user'.sameState u0 ∨
      ∃ event, failing = .address event ∧ event.Action = .EventCreate ∧
        CreatedWithoutBootstrap u0 user' event := by
  cases failing with
  | user ev => simp [applySubEvent, handleUserEvent] at h
  | address ev =>
    simp only [applySubEvent] at h
    cases hact : ev.Action <;> simp only [hact] at h
    · rw [handleDeleteAddressEvent_err h]; exact Or.inl (User.sameState_refl _)
    · rcases handleCreateAddressEvent_err h with h1 | h1
      · rw [h1]; exact Or.inl (User.sameState_refl _)
      · exact Or.inr ⟨ev, rfl, hact, h1⟩
    · rw [handleUpdateAddressEvent_err h]; exact Or.inl (User.sameState_refl _)
    · rw [handleUpdateAddressEvent_err h]; exact Or.inl (User.sameState_refl _)
  | label ev =>
    simp only [applySubEvent] at h
    cases hact : ev.Action <;> simp only [hact] at h
    · rw [handleDeleteLabelEvent_err h]; exact Or.inl (User.sameState_refl _)
    · rw [handleCreateLabelEvent_err h]; exact Or.inl (User.sameState_refl _)
    · rw [handleUpdateLabelEvent_err h]; exact Or.inl (User.sameState_refl _)
    · rw [handleUpdateLabelEvent_err h]; exact Or.inl (User.sameState_refl _)
  | message ev =>
    simp only [applySubEvent] at h
    cases hact : ev.Action <;> simp only [hact] at h
    · unfold handleDeleteMessageEvent at h
      split at h <;> simp at h
    · rw [handleCreateMessageEvent_err h]; exact Or.inl ⟨rfl, rfl, rfl, rfl, rfl, rfl⟩
    · simp only [handleUpdateMessageEvent] at h
      split at h <;> simp at h
    · simp only [handleUpdateMessageEvent] at h
      split at h <;> simp at h

/-! ## The dispatcher -/

/-- C2: when every handler succeeds, that is, when applying one after the other
the user sub-event (if present), then every address sub-event in list order,
then every label sub-event in list order, then every message sub-event in list
order yields the state `user'`, then `handleAPIEvent` returns no error and
leaves exactly the state `user'`. -/
theorem handleAPIEvent_ok (env : Env) (user user' : User) (event : liteapi.Event)
    (h : applyAll env user (subEvents event) = some user') :
    handleAPIEvent env user event = .ok user' := by
  have hsim := handleAPIEvent_sim env user event
  rw [(applyUntil_ok_iff env _ _ _).mpr h] at hsim
  exact Result.sim_ok hsim

/-- Witness of C2: a batch with a user, two address, one label and two message
sub-events, all of which succeed. -/
theorem handleAPIEvent_ok_witness :
    applyAll demoEnv demoCombined (subEvents demoBatch) = some demoCombinedDone ∧
    handleAPIEvent demoEnv demoCombined demoBatch = .ok demoCombinedDone :=
  ⟨by decide, handleAPIEvent_ok demoEnv demoCombined demoCombinedDone demoBatch (by decide)⟩

/-- C1, as stated, fails: in Split mode the batch "create address B" fails in
the label bootstrap when the remote client is unreachable, yet the state left
behind holds address B, its new queue and the AddressCreated notification; it is
not the state obtained from the (empty) list of sub-events that precede the
failing one. -/
theorem handleAPIEvent_err_counterexample :
    handleAPIEvent demoEnvDown demoSplit demoBatchCreateB =
      .err (.wrap "failed to handle create address event"
        (.wrap "failed to sync labels to new address" (.external "network down")))
        demoSplitFailed ∧
    ¬ PrefixApplied demoEnvDown demoSplit demoBatchCreateB demoSplitFailed := by
  refine ⟨by decide, ?_⟩
  rintro ⟨pre, failing, post, u0, hsub, hall, -, hsame⟩
  have hpre : pre = [] := by
    cases pre with
    | nil => rfl
    | cons x xs =>
      have := congrArg List.length hsub
      simp [subEvents, demoBatchCreateB] at this
  subst hpre
  simp only [applyAll, Option.some.injEq] at hall
  subst hall
  exact absurd hsame (by decide)

/-- C1, amended: if `handleAPIEvent` returns an error then the sub-events split
into those that precede the failing one, the failing one, and the rest; the
preceding ones have all been applied in order, none of the rest has, and the
failing handler returned the error (up to wrapping).  The state left behind
agrees with the state after the preceding sub-events on profile, tables,
registry, queues and notifications, except when the failing sub-event is a
Split-mode address create whose label bootstrap failed: then it also holds the
new address, its newly allocated empty queue and the AddressCreated notification. -/
theorem handleAPIEvent_err (env : Env) (user user' : User) (event : liteapi.Event)
    (e : Error) (h : handleAPIEvent env user event = .err e user') :
    ∃ pre failing post u0 e0, subEvents event = pre ++ failing :: post ∧
      applyAll env user pre = some u0 ∧
      applySubEvent env u0 failing = .err e0 user' ∧ e.root = e0.root ∧
      (user'.sameState u0 ∨
        ∃ ev, failing = .address ev ∧ ev.Action = .EventCreate ∧
          CreatedWithoutBootstrap u0 user' ev) := by
  obtain ⟨e0, hrun, hroot⟩ := Result.sim_of_err (handleAPIEvent_sim env user event) h
  obtain ⟨pre, failing, post, u0, hsub, hall, hfail⟩ := applyUntil_err env _ _ _ _ hrun
  exact ⟨pre, failing, post, u0, e0, hsub, hall, hfail, hroot, applySubEvent_err hfail⟩

/-- Witness of C1, amended: the second address sub-event of the batch fails. -/
theorem handleAPIEvent_err_witness :
    handleAPIEvent demoEnv demoCombined demoBatchFailing =
      .err (.wrap "failed to handle create address event"
        (.wrap "failed to handle create address event"
          (.errorf "address %q already exists" "A"))) demoCombinedFailed ∧
    ∃ pre failing post u0 e0, subEvents demoBatchFailing = pre ++ failing :: post ∧
      applyAll demoEnv demoCombined pre = some u0 ∧
      applySubEvent demoEnv u0 failing = .err e0 demoCombinedFailed ∧
      (Error.wrap "failed to handle create address event"
        (.wrap "failed to handle create address event"
          (.errorf "address %q already exists" "A"))).root = e0.root ∧
      (demoCombinedFailed.sameState u0 ∨
        ∃ ev, failing = .address ev ∧ ev.Action = .EventCreate ∧
          CreatedWithoutBootstrap u0 demoCombinedFailed ev) :=
  ⟨by decide, handleAPIEvent_err demoEnv demoCombined demoCombinedFailed demoBatchFailing _
    (by decide)⟩

/-! ## Message events -/

/-- C11: a message create event whose remote full-message fetch fails, or whose
keyring resolution fails, or whose message build fails, makes
`handleCreateMessageEvent` return an error (the collaborator's error, wrapped)
and leaves profile, both tables, registry, every queue and the notification
stream unchanged: no update is enqueued to any queue. -/
theorem handleCreateMessageEvent_fails (env : Env) (user : User)
    (event : liteapi.MessageEvent) :
    (∀ err, env.GetFullMessage user.remoteCalls event.Message.ID = .error err →
      ∃ e user', handleCreateMessageEvent env user event = .err e user' ∧
        e.root = err.root ∧ user'.sameState user) ∧
    (∀ full err, env.GetFullMessage user.remoteCalls event.Message.ID = .ok full →
      env.unlock user.apiUser (user.apiAddrs.index event.Message.AddressID .zero)
        user.vault.KeyPass = .error err →
      ∃ e user', handleCreateMessageEvent env user event = .err e user' ∧
        e.root = err.root ∧ user'.sameState user) ∧
    (∀ full addrKR err, env.GetFullMessage user.remoteCalls event.Message.ID = .ok full →
      env.unlock user.apiUser (user.apiAddrs.index event.Message.AddressID .zero)
        user.vault.KeyPass = .ok addrKR →
      env.buildRFC822 full addrKR = .error err →
      ∃ e user', handleCreateMessageEvent env user event = .err e user' ∧
        e.root = err.root ∧ user'.sameState user) := by
  refine ⟨fun err hf => ?_, fun full err hf hk => ?_, fun full addrKR err hf hk hb => ?_⟩
  · refine ⟨.wrap "failed to get full message" err,
      { user with remoteCalls := user.remoteCalls + 1 }, ?_, rfl, ⟨rfl, rfl, rfl, rfl, rfl, rfl⟩⟩
    simp [handleCreateMessageEvent, hf]
  · refine ⟨err, { user with remoteCalls := user.remoteCalls + 1 }, ?_, rfl,
      ⟨rfl, rfl, rfl, rfl, rfl, rfl⟩⟩
    simp [handleCreateMessageEvent, withAddrKR, hf, hk]
  · refine ⟨.wrap "failed to build RFC822 message" err,
      { user with remoteCalls := user.remoteCalls + 1 }, ?_, rfl, ⟨rfl, rfl, rfl, rfl, rfl, rfl⟩⟩
    simp [handleCreateMessageEvent, withAddrKR, hf, hk, hb]

/-- Witness of C11: the fetch fails, the key store fails, the builder fails. -/
theorem handleCreateMessageEvent_fails_witness :
    (∃ e user', handleCreateMessageEvent demoEnvDown demoSplit
        ⟨"m1", .EventCreate, demoMessage⟩ = .err e user' ∧
      e.root = (Error.external "network down").root ∧ user'.sameState demoSplit) ∧
    (∃ e user', handleCreateMessageEvent demoEnvNoKey demoSplit
        ⟨"m1", .EventCreate, demoMessage⟩ = .err e user' ∧
      e.root = (Error.external "wrong passphrase").root ∧ user'.sameState demoSplit) ∧
    (∃ e user', handleCreateMessageEvent demoEnvNoBuild demoSplit
        ⟨"m1", .EventCreate, demoMessage⟩ = .err e user' ∧
      e.root = (Error.external "cannot decrypt").root ∧ user'.sameState demoSplit) :=
  ⟨(handleCreateMessageEvent_fails demoEnvDown demoSplit ⟨"m1", .EventCreate, demoMessage⟩).1
      (.external "network down") rfl,
    (handleCreateMessageEvent_fails demoEnvNoKey demoSplit
      ⟨"m1", .EventCreate, demoMessage⟩).2.1 ⟨"m1", "A", "body"⟩
      (.external "wrong passphrase") rfl rfl,
    (handleCreateMessageEvent_fails demoEnvNoBuild demoSplit
      ⟨"m1", .EventCreate, demoMessage⟩).2.2 ⟨"m1", "A", "body"⟩ "keyring"
      (.external "cannot decrypt") rfl rfl rfl⟩

theorem Enqueue_open (qs : List QueuedChannel) (h : Nat) (q : QueuedChannel)
    (x : imap.Update) (hq : qs[h]? = some q) (hopen : q.closed = false) :
    Enqueue qs (some h) x = some (qs.set h ⟨q.items ++ [x], false⟩) := by
  rw [Enqueue_eq_some.mpr ⟨h, q, rfl, hq, rfl⟩]
  simp [QueuedChannel.Enqueue, hopen]

/-- C12: a message create event whose fetch, keyring and build steps succeed,
and a message update event, each succeed when the queue registered for the
owning address of the message is a usable queue; they append exactly one update
(MessagesCreated, respectively MessageMailboxesUpdated) at the tail of that
queue and leave every other queue, both tables, the registry, the profile and
the notification stream unchanged. -/
theorem message_event_routed (env : Env) (user : User) (event : liteapi.MessageEvent)
    (h : Nat) (q : QueuedChannel) (hq : user.queues[h]? = some q) (hopen : q.closed = false) :
    (∀ full addrKR update,
      env.GetFullMessage user.remoteCalls event.Message.ID = .ok full →
      env.unlock user.apiUser (user.apiAddrs.index event.Message.AddressID .zero)
        user.vault.KeyPass = .ok addrKR →
      env.buildRFC822 full addrKR = .ok update →
      user.updateCh.lookup full.AddressID = some (some h) →
      ∃ user', handleCreateMessageEvent env user event = .ok user' ∧
        user'.queues[h]? = some ⟨q.items ++ [.MessagesCreated update], false⟩ ∧
        (∀ h' : Nat, h' ≠ h → user'.queues[h']? = user.queues[h']?) ∧
        user'.queues.length = user.queues.length ∧
        user'.apiAddrs = user.apiAddrs ∧ user'.apiLabels = user.apiLabels ∧
        user'.updateCh = user.updateCh ∧ user'.eventCh = user.eventCh ∧
        user'.apiUser = user.apiUser) ∧
    (user.updateCh.lookup event.Message.AddressID = some (some h) →
      ∃ user' mailboxIDs, handleUpdateMessageEvent env user event = .ok user' ∧
        user'.queues[h]? = some ⟨q.items ++ [.MessageMailboxesUpdated event.ID mailboxIDs
          event.Message.Seen event.Message.Starred], false⟩ ∧
        (∀ h' : Nat, h' ≠ h → user'.queues[h']? = user.queues[h']?) ∧
        user'.queues.length = user.queues.length ∧
        user'.apiAddrs = user.apiAddrs ∧ user'.apiLabels = user.apiLabels ∧
        user'.updateCh = user.updateCh ∧ user'.eventCh = user.eventCh ∧
        user'.apiUser = user.apiUser) := by
  have hlt : h < user.queues.length := (List.getElem?_eq_some.mp hq).1
  refine ⟨fun full addrKR update hf hk hb hreg => ?_, fun hreg => ?_⟩
  · have hidx : user.updateCh.index full.AddressID none = some h :=
      index_of_lookup _ _ _ _ hreg
    refine ⟨{ user with
      remoteCalls := user.remoteCalls + 1
      queues := user.queues.set h ⟨q.items ++ [.MessagesCreated update], false⟩ }, ?_, ?_, ?_,
      ?_, rfl, rfl, rfl, rfl, rfl⟩
    · simp [handleCreateMessageEvent, withAddrKR, hf, hk, hb, hidx,
        Enqueue_open _ _ _ _ hq hopen]
    · simp [hlt]
    · intro h' hh'
      simp [List.getElem?_set_ne (Ne.symm hh')]
    · simp
  · have hidx : user.updateCh.index event.Message.AddressID none = some h :=
      index_of_lookup _ _ _ _ hreg
    refine ⟨{ user with
      queues := user.queues.set h ⟨q.items ++ [.MessageMailboxesUpdated event.ID
        (mapTo (event.Message.LabelIDs.filter env.wantLabelID))
        event.Message.Seen event.Message.Starred], false⟩ },
      mapTo (event.Message.LabelIDs.filter env.wantLabelID), ?_, ?_, ?_,
      ?_, rfl, rfl, rfl, rfl, rfl⟩
    · simp [handleUpdateMessageEvent, hidx, Enqueue_open _ _ _ _ hq hopen]
    · simp [hlt]
    · intro h' hh'
      simp [List.getElem?_set_ne (Ne.symm hh')]
    · simp

/-- Witness of C12: a message of address A, whose queue 0 holds one update. -/
theorem message_event_routed_witness :
    demoSplit.queues[0]? = some ⟨[.MailboxDeleted "old"], false⟩ ∧
    (∃ user', handleCreateMessageEvent demoEnv demoSplit ⟨"m1", .EventCreate, demoMessage⟩ =
        .ok user' ∧
      user'.queues[0]? = some ⟨[.MailboxDeleted "old"] ++ [.MessagesCreated "body"], false⟩ ∧
      (∀ h' : Nat, h' ≠ 0 → user'.queues[h']? = demoSplit.queues[h']?) ∧
      user'.queues.length = demoSplit.queues.length ∧
      user'.apiAddrs = demoSplit.apiAddrs ∧ user'.apiLabels = demoSplit.apiLabels ∧
      user'.updateCh = demoSplit.updateCh ∧ user'.eventCh = demoSplit.eventCh ∧
      user'.apiUser = demoSplit.apiUser) ∧
    (∃ user' mailboxIDs, handleUpdateMessageEvent demoEnv demoSplit
        ⟨"m1", .EventUpdate, demoMessage⟩ = .ok user' ∧
      user'.queues[0]? = some ⟨[.MailboxDeleted "old"] ++
        [.MessageMailboxesUpdated "m1" mailboxIDs true false], false⟩ ∧
      (∀ h' : Nat, h' ≠ 0 → user'.queues[h']? = demoSplit.queues[h']?) ∧
      user'.queues.length = demoSplit.queues.length ∧
      user'.apiAddrs = demoSplit.apiAddrs ∧ user'.apiLabels = demoSplit.apiLabels ∧
      user'.updateCh = demoSplit.updateCh ∧ user'.eventCh = demoSplit.eventCh ∧
      user'.apiUser = demoSplit.apiUser) :=
  ⟨by decide,
    (message_event_routed demoEnv demoSplit ⟨"m1", .EventCreate, demoMessage⟩ 0
      ⟨[.MailboxDeleted "old"], false⟩ (by decide) rfl).1 ⟨"m1", "A", "body"⟩ "keyring" "body"
      rfl rfl rfl (by decide),
    (message_event_routed demoEnv demoSplit ⟨"m1", .EventUpdate, demoMessage⟩ 0
      ⟨[.MailboxDeleted "old"], false⟩ (by decide) rfl).2 (by decide)⟩

/-- C18: a message update (or update-flags) event whose owning address has a
registered usable queue always succeeds, whatever label identifiers it carries;
the MessageMailboxesUpdated record it enqueues carries the event identifier, the
seen and starred flags of the event, and as mailbox identifiers exactly the label
identifiers of the event that name known mailboxes (`wantLabelID`), in their
original order, all others being dropped. -/
theorem handleUpdateMessageEvent_mailboxes (env : Env) (user : User)
    (event : liteapi.MessageEvent) (h : Nat) (q : QueuedChannel)
    (hreg : user.updateCh.lookup event.Message.AddressID = some (some h))
    (hq : user.queues[h]? = some q) (hopen : q.closed = false) :
    ∃ user' mailboxIDs, handleUpdateMessageEvent env user event = .ok user' ∧
      user'.queues[h]? = some ⟨q.items ++ [.MessageMailboxesUpdated event.ID mailboxIDs
        event.Message.Seen event.Message.Starred], false⟩ ∧
      mailboxIDs = event.Message.LabelIDs.filter env.wantLabelID ∧
      mailboxIDs.Sublist event.Message.LabelIDs ∧
      (∀ id, id ∈ mailboxIDs ↔ id ∈ event.Message.LabelIDs ∧ env.wantLabelID id = true) ∧
      ((event.Action = .EventUpdate ∨ event.Action = .EventUpdateFlags) →
        applySubEvent env user (.message event) = .ok user') := by
  have hlt : h < user.queues.length := (List.getElem?_eq_some.mp hq).1
  have hidx : user.updateCh.index event.Message.AddressID none = some h :=
    index_of_lookup _ _ _ _ hreg
  have hrun : handleUpdateMessageEvent env user event = .ok { user with
      queues := user.queues.set h ⟨q.items ++ [.MessageMailboxesUpdated event.ID
        (event.Message.LabelIDs.filter env.wantLabelID)
        event.Message.Seen event.Message.Starred], false⟩ } := by
    simp [handleUpdateMessageEvent, hidx, Enqueue_open _ _ _ _ hq hopen, mapTo]
  refine ⟨_, event.Message.LabelIDs.filter env.wantLabelID, hrun, ?_, rfl,
    List.filter_sublist _, ?_, ?_⟩
  · simp [hlt]
  · intro id
    simp [List.mem_filter]
  · intro hact
    rcases hact with hact | hact <;> simp only [applySubEvent, hact] <;> exact hrun

/-- Witness of C18: of the label identifiers M, 1 and L the unknown one, 1, is
dropped and M and L are kept in that order. -/
theorem handleUpdateMessageEvent_mailboxes_witness :
    ∃ user' mailboxIDs, handleUpdateMessageEvent demoEnv demoSplit
        ⟨"m1", .EventUpdateFlags, demoMessage⟩ = .ok user' ∧
      user'.queues[0]? = some ⟨[.MailboxDeleted "old"] ++
        [.MessageMailboxesUpdated "m1" mailboxIDs true false], false⟩ ∧
      mailboxIDs = ["M", "1", "L"].filter demoEnv.wantLabelID ∧
      mailboxIDs.Sublist ["M", "1", "L"] ∧
      (∀ id, id ∈ mailboxIDs ↔ id ∈ ["M", "1", "L"] ∧ demoEnv.wantLabelID id = true) ∧
      ((liteapi.EventAction.EventUpdateFlags = .EventUpdate ∨
          liteapi.EventAction.EventUpdateFlags = .EventUpdateFlags) →
        applySubEvent demoEnv demoSplit (.message ⟨"m1", .EventUpdateFlags, demoMessage⟩) =
          .ok user') :=
  handleUpdateMessageEvent_mailboxes demoEnv demoSplit ⟨"m1", .EventUpdateFlags, demoMessage⟩ 0
    ⟨[.MailboxDeleted "old"], false⟩ (by decide) (by decide) rfl

/-! ## The user profile -/

/-- C14: every user event is handled successfully; afterwards the stored profile
is the profile of the event, whatever the prior profile was, exactly one
UserChanged notification has been appended to the notification stream, and the
address table, label table, registry and queues are unchanged. -/
theorem handleUserEvent_spec (env : Env) (user : User) (userEvent : liteapi.User) :
    ∃ user' uid, handleUserEvent env user userEvent = .ok user' ∧
      user'.apiUser = userEvent ∧
      user'.eventCh = user.eventCh ++ [.UserChanged uid] ∧
      user'.apiAddrs = user.apiAddrs ∧ user'.apiLabels = user.apiLabels ∧
      user'.updateCh = user.updateCh ∧ user'.queues = user.queues :=
  ⟨_, _, rfl, rfl, rfl, rfl, rfl, rfl, rfl⟩

/-! ## Address events in Combined mode -/

/-- C20: in Combined mode, a delete event for an address that is in the address
table succeeds and removes the address from the address table only: the queue
registry, the entry of the deleted identifier included, and every queue, with
its contents and its open or closed status, are unchanged; one AddressDeleted
notification is pushed. -/
theorem handleDeleteAddressEvent_combined (env : Env) (user : User)
    (event : liteapi.AddressEvent) (addr : liteapi.Address)
    (hmode : user.vault.AddressMode = .CombinedMode)
    (haddr : user.apiAddrs.lookup event.ID = some addr) :
    ∃ user' uid, handleDeleteAddressEvent env user event = .ok user' ∧
      user'.apiAddrs = user.apiAddrs.erase event.ID ∧
      user'.updateCh = user.updateCh ∧
      user'.updateCh.lookup event.ID = user.updateCh.lookup event.ID ∧
      user'.queues = user.queues ∧
      user'.eventCh = user.eventCh ++ [.UserAddressDeleted uid event.ID addr.Email] ∧
      user'.apiLabels = user.apiLabels ∧ user'.apiUser = user.apiUser := by
  simp [handleDeleteAddressEvent, haddr, hmode]

/-- Witness of C20: address B, which shares queue 0 with address A, is deleted. -/
theorem handleDeleteAddressEvent_combined_witness :
    ∃ user' uid, handleDeleteAddressEvent demoEnv demoShared ⟨"B", .EventDelete, .zero⟩ =
        .ok user' ∧
      user'.apiAddrs = demoShared.apiAddrs.erase "B" ∧
      user'.updateCh = demoShared.updateCh ∧
      user'.updateCh.lookup "B" = demoShared.updateCh.lookup "B" ∧
      user'.queues = demoShared.queues ∧
      user'.eventCh = demoShared.eventCh ++ [.UserAddressDeleted uid "B" addrB.Email] ∧
      user'.apiLabels = demoShared.apiLabels ∧ user'.apiUser = demoShared.apiUser :=
  handleDeleteAddressEvent_combined demoEnv demoShared ⟨"B", .EventDelete, .zero⟩ addrB
    (by decide) (by decide)

/-- C19: in Combined mode, for a create event of an address that is not yet in
the address table, the lookup of the primary address at index 0 is made on the
table that already holds the new address, so it succeeds; the error branch
"failed to get primary address" is not taken, and the create returns no error
at all, hence none after the address was inserted. -/
theorem handleCreateAddressEvent_combined_no_error (env : Env) (user : User)
    (event : liteapi.AddressEvent) (hmode : user.vault.AddressMode = .CombinedMode)
    (hnew : event.Address.ID ∉ user.apiAddrs) :
    (∃ primAddr,
      getAddrIdx (user.apiAddrs.insert event.Address.ID event.Address) 0 = .ok primAddr) ∧
    (∃ user', handleCreateAddressEvent env user event = .ok user') ∧
    (∀ e user', handleCreateAddressEvent env user event ≠ .err e user') := by
  have hs : (user.apiAddrs.lookup event.Address.ID).isSome = false := by
    simp [AList.lookup_eq_none.mpr hnew]
  have hne : GoMap.values (user.apiAddrs.insert event.Address.ID event.Address) ≠ [] := by
    rw [values_insert_of_not_mem _ _ _ hnew]; simp
  obtain ⟨a, ha⟩ := getAddrIdx_zero_isOk _ hne
  have hok : ∃ user', handleCreateAddressEvent env user event = .ok user' := by
    simp [handleCreateAddressEvent, hs, hmode, ha, Result.wrapErr, Result.andThen]
  obtain ⟨user', hu⟩ := hok
  refine ⟨⟨a, ha⟩, ⟨user', hu⟩, fun e u' he => ?_⟩
  rw [hu] at he
  cases he

/-- Witness of C19: address B is created in a Combined-mode state that holds A. -/
theorem handleCreateAddressEvent_combined_no_error_witness :
    (∃ primAddr, getAddrIdx (demoCombined.apiAddrs.insert "B" addrB) 0 = .ok primAddr) ∧
    (∃ user', handleCreateAddressEvent demoEnv demoCombined ⟨"B", .EventCreate, addrB⟩ =
      .ok user') ∧
    (∀ e user', handleCreateAddressEvent demoEnv demoCombined ⟨"B", .EventCreate, addrB⟩ ≠
      .err e user') :=
  handleCreateAddressEvent_combined_no_error demoEnv demoCombined ⟨"B", .EventCreate, addrB⟩
    (by decide) (by decide)

/-! ## Deleting a message -/

theorem handleDeleteMessageEvent_ok {env : Env} {user user' : User}
    {event : liteapi.MessageEvent} (h : handleDeleteMessageEvent env user event = .ok user') :
    rangeEnqueue (.MessagesDeleted event.ID) user.queues user.updateCh.values =
        some user'.queues ∧
      user'.updateCh = user.updateCh ∧ user'.apiLabels = user.apiLabels ∧
      user'.apiAddrs = user.apiAddrs ∧ user'.apiUser = user.apiUser ∧
      user'.vault = user.vault ∧ user'.eventCh = user.eventCh := by
  unfold handleDeleteMessageEvent at h
  rcases hr : rangeEnqueue (.MessagesDeleted event.ID) user.queues user.updateCh.values
    with _ | qs
  · simp [hr] at h
  · simp [hr] at h
    subst h
    exact ⟨rfl, rfl, rfl, rfl, rfl, rfl, rfl⟩

theorem handleDeleteMessageEvent_isOk (env : Env) (user : User) (event : liteapi.MessageEvent)
    (hl : ∀ p ∈ user.updateCh.values, live user.queues p = true) :
    ∃ user', handleDeleteMessageEvent env user event = .ok user' := by
  obtain ⟨qs, hq⟩ := rangeEnqueue_isSome (.MessagesDeleted event.ID) _ _ hl
  simp [handleDeleteMessageEvent, hq]

/-- C13, as stated, fails: in Combined mode, with the addresses A and B
registered against the same queue 0, a message delete event appends two
MessagesDeleted updates to that queue, one per registry entry, and not exactly
one. -/
theorem handleDeleteMessageEvent_counterexample :
    demoShared.vault.AddressMode = .CombinedMode ∧
    demoShared.updateCh.lookup "A" = some (some 0) ∧
    demoShared.updateCh.lookup "B" = some (some 0) ∧
    demoShared.queues[0]? = some ⟨[], false⟩ ∧
    ∃ user', handleDeleteMessageEvent demoEnv demoShared ⟨"m1", .EventDelete, demoMessage⟩ =
        .ok user' ∧
      user'.queues[0]? = some ⟨[.MessagesDeleted "m1", .MessagesDeleted "m1"], false⟩ ∧
      user'.queues[0]? ≠ some ⟨[.MessagesDeleted "m1"], false⟩ := by
  refine ⟨by decide, by decide, by decide, by decide, _, rfl, by decide, by decide⟩

/-- C13, amended: in either address mode, when every registry entry is a usable
queue, a message delete event succeeds and every queue of the registry gets one
MessagesDeleted update for the message identifier appended per registry entry
that refers to it: exactly one when the registered queues are pairwise distinct,
one per sharing address when addresses share the queue.  Tables, registry,
profile and notification stream are unchanged, and so is every queue outside the
registry. -/
theorem handleDeleteMessageEvent_broadcast (env : Env) (user : User)
    (event : liteapi.MessageEvent) (hus : user.registryUsable) :
    ∃ user', handleDeleteMessageEvent env user event = .ok user' ∧
      (∀ k h, user.updateCh.lookup k = some (some h) →
        1 ≤ user.updateCh.values.count (some h) ∧
        AppendedTo user user' h
          (List.replicate (user.updateCh.values.count (some h)) (.MessagesDeleted event.ID))) ∧
      (user.updateCh.values.Nodup → BroadcastOnce user user' (.MessagesDeleted event.ID)) ∧
      (∀ h : Nat, some h ∉ user.updateCh.values → user'.queues[h]? = user.queues[h]?) ∧
      user'.apiAddrs = user.apiAddrs ∧ user'.apiLabels = user.apiLabels ∧
      user'.updateCh = user.updateCh ∧ user'.eventCh = user.eventCh ∧
      user'.apiUser = user.apiUser := by
  have hl : ∀ p ∈ user.updateCh.values, live user.queues p = true :=
    fun p hp => usable_live (hus p hp)
  obtain ⟨user', hok⟩ := handleDeleteMessageEvent_isOk env user event hl
  obtain ⟨hr, hreg, hlab, haddr, huser, -, hev⟩ := handleDeleteMessageEvent_ok hok
  obtain ⟨-, -, hget⟩ := rangeEnqueue_getElem? _ _ _ _ hr
  refine ⟨user', hok, fun k h hk => ⟨?_, rangeEnqueue_appended _ user user' hus hr k h hk⟩,
    fun hnd => rangeEnqueue_broadcastOnce _ user user' hnd hus hr hreg, fun h hh => ?_,
    haddr, hlab, hreg, hev, huser⟩
  · exact List.count_pos_iff.mpr (mem_values_of_lookup hk)
  · rw [hget h, List.count_eq_zero_of_not_mem hh]
    cases user.queues[h]? <;> simp [EnqueueN_zero]

/-- Witness of C13, amended: with separate queues each gets one update, with a
shared queue it gets two. -/
theorem handleDeleteMessageEvent_broadcast_witness :
    demoTwoQueues.registryUsable ∧ demoTwoQueues.updateCh.values.Nodup ∧
    demoShared.registryUsable ∧
    (∃ user', handleDeleteMessageEvent demoEnv demoTwoQueues
        ⟨"m1", .EventDelete, demoMessage⟩ = .ok user' ∧
      BroadcastOnce demoTwoQueues user' (.MessagesDeleted "m1")) ∧
    (∃ user', handleDeleteMessageEvent demoEnv demoShared
        ⟨"m1", .EventDelete, demoMessage⟩ = .ok user' ∧
      AppendedTo demoShared user' 0
        (List.replicate (demoShared.updateCh.values.count (some 0))
          (.MessagesDeleted "m1"))) := by
  refine ⟨by decide, by decide, by decide, ?_, ?_⟩
  · obtain ⟨user', hok, -, hb, -⟩ := handleDeleteMessageEvent_broadcast demoEnv demoTwoQueues
      ⟨"m1", .EventDelete, demoMessage⟩ (by decide)
    exact ⟨user', hok, hb (by decide)⟩
  · obtain ⟨user', hok, ha, -⟩ := handleDeleteMessageEvent_broadcast demoEnv demoShared
      ⟨"m1", .EventDelete, demoMessage⟩ (by decide)
    exact ⟨user', hok, (ha "A" 0 (by decide)).2⟩

/-! ## Successful address events -/

theorem syncLabels_ok {env : Env} {user user' : User} {p : Ptr}
    (h : syncLabels env user p = .ok user') :
    ∃ labels qs, env.GetLabels user.remoteCalls = .ok labels ∧
      enqueueAll p user.queues (bootstrapUpdates labels) = some qs ∧
      user' = { user with remoteCalls := user.remoteCalls + 1, queues := qs } := by
  unfold syncLabels at h
  rcases hf : env.GetLabels user.remoteCalls with err | labels
  · simp [hf] at h
  · simp only [hf] at h
    rcases hq : enqueueAll p user.queues
      (labels.map fun label => newMailboxCreatedUpdate label.ID (getMailboxName label))
      with _ | qs
    · simp [hq] at h
    · simp [hq] at h
      exact ⟨labels, qs, rfl, hq, h.symm⟩

theorem handleCreateAddressEvent_ok {env : Env} {user user' : User}
    {event : liteapi.AddressEvent} (h : handleCreateAddressEvent env user event = .ok user') :
    event.Address.ID ∉ user.apiAddrs ∧
      user'.apiAddrs = user.apiAddrs.insert event.Address.ID event.Address ∧
      user'.apiLabels = user.apiLabels ∧ user'.apiUser = user.apiUser ∧
      user'.vault = user.vault ∧
      (∃ uid, user'.eventCh =
        user.eventCh ++ [.UserAddressCreated uid event.Address.ID event.Address.Email]) ∧
      ((user.vault.AddressMode = .CombinedMode ∧ user'.queues = user.queues ∧
          ∃ primAddr,
            getAddrIdx (user.apiAddrs.insert event.Address.ID event.Address) 0 = .ok primAddr ∧
            user'.updateCh = user.updateCh.insert event.Address.ID
              (user.updateCh.index primAddr.ID none)) ∨
        (user.vault.AddressMode = .SplitMode ∧
          user'.updateCh = user.updateCh.insert event.Address.ID (some user.queues.length) ∧
          ∃ labels, user'.queues = user.queues ++ [⟨bootstrapUpdates labels, false⟩])) := by
  unfold handleCreateAddressEvent at h
  by_cases hs : (user.apiAddrs.lookup event.Address.ID).isSome = true
  · simp [hs, Result.wrapErr, Result.andThen] at h
  · have hnew : event.Address.ID ∉ user.apiAddrs := fun hm => hs (AList.lookup_isSome.mpr hm)
    cases hmode : user.vault.AddressMode with
    | CombinedMode =>
      rcases ha : getAddrIdx (user.apiAddrs.insert event.Address.ID event.Address) 0
        with err | primAddr
      · simp [hs, hmode, ha, Result.wrapErr, Result.andThen] at h
      · simp [hs, hmode, ha, Result.wrapErr, Result.andThen] at h
        subst h
        exact ⟨hnew, rfl, rfl, rfl, rfl, ⟨_, rfl⟩, Or.inl ⟨rfl, rfl, primAddr, rfl, rfl⟩⟩
    | SplitMode =>
      simp [hs, hmode, Result.wrapErr, Result.andThen, GoMap.index,
        AList.lookup_insert] at h
      generalize hu1 : ({ user with
        apiAddrs := user.apiAddrs.insert event.Address.ID event.Address
        updateCh := user.updateCh.insert event.Address.ID (some user.queues.length)
        queues := user.queues ++ [NewQueuedChannel]
        eventCh := user.eventCh ++ [.UserAddressCreated
          (env.ID { user with
            apiAddrs := user.apiAddrs.insert event.Address.ID event.Address
            updateCh := user.updateCh.insert event.Address.ID (some user.queues.length)
            queues := user.queues ++ [NewQueuedChannel] })
          event.Address.ID event.Address.Email] } : User) = u1 at h
      rcases hr : syncLabels env u1 (some user.queues.length) with u2 | ⟨e, u2⟩ | _
      · rw [hr] at h
        simp at h
        subst h
        obtain ⟨labels, qs, hf, hq, rfl⟩ := syncLabels_ok hr
        subst hu1
        have hcell : (user.queues ++ [NewQueuedChannel])[user.queues.length]? =
            some NewQueuedChannel := by simp
        have hall := enqueueAll_open user.queues.length (bootstrapUpdates labels) _ _ hcell rfl
        simp only at hq
        rw [hall] at hq
        have hqs : qs = user.queues ++ [⟨bootstrapUpdates labels, false⟩] := by
          have := Option.some.inj hq
          rw [← this]
          simp [NewQueuedChannel]
        exact ⟨hnew, rfl, rfl, rfl, rfl, ⟨_, rfl⟩, Or.inr ⟨rfl, rfl, labels, hqs⟩⟩
      · rw [hr] at h; simp at h
      · rw [hr] at h; simp at h

theorem handleUpdateAddressEvent_ok {env : Env} {user user' : User}
    {event : liteapi.AddressEvent} (h : handleUpdateAddressEvent env user event = .ok user') :
    event.Address.ID ∈ user.apiAddrs ∧
      user'.apiAddrs = user.apiAddrs.insert event.Address.ID event.Address ∧
      user'.updateCh = user.updateCh ∧ user'.queues = user.queues ∧
      user'.apiLabels = user.apiLabels ∧ user'.apiUser = user.apiUser ∧
      user'.vault = user.vault ∧
      ∃ uid, user'.eventCh =
        user.eventCh ++ [.UserAddressUpdated uid event.Address.ID event.Address.Email] := by
  unfold handleUpdateAddressEvent at h
  by_cases hs : (user.apiAddrs.lookup event.Address.ID).isSome = true
  · simp [hs] at h
    subst h
    exact ⟨AList.lookup_isSome.mp hs, rfl, rfl, rfl, rfl, rfl, rfl, _, rfl⟩
  · simp [hs] at h

theorem handleDeleteAddressEvent_ok {env : Env} {user user' : User}
    {event : liteapi.AddressEvent} (h : handleDeleteAddressEvent env user event = .ok user') :
    ∃ addr, user.apiAddrs.lookup event.ID = some addr ∧
      user'.apiAddrs = user.apiAddrs.erase event.ID ∧
      user'.apiLabels = user.apiLabels ∧ user'.apiUser = user.apiUser ∧
      user'.vault = user.vault ∧
      (∃ uid, user'.eventCh = user.eventCh ++ [.UserAddressDeleted uid event.ID addr.Email]) ∧
      ((user.vault.AddressMode = .CombinedMode ∧ user'.updateCh = user.updateCh ∧
          user'.queues = user.queues) ∨
        (user.vault.AddressMode = .SplitMode ∧ user'.updateCh = user.updateCh.erase event.ID ∧
          ∃ h0, user.updateCh.index event.ID none = some h0 ∧ h0 < user.queues.length ∧
            user'.queues = user.queues.set h0 ⟨[], true⟩)) := by
  unfold handleDeleteAddressEvent at h
  rcases hl : user.apiAddrs.lookup event.ID with _ | addr
  · simp [hl] at h
  · cases hmode : user.vault.AddressMode with
    | CombinedMode =>
      simp [hl, hmode] at h
      subst h
      exact ⟨addr, rfl, rfl, rfl, rfl, rfl, ⟨_, rfl⟩, Or.inl ⟨rfl, rfl, rfl⟩⟩
    | SplitMode =>
      rcases hp : user.updateCh.index event.ID none with _ | h0
      · simp [hl, hmode, hp, CloseAndDiscardQueued] at h
      · by_cases hlt : h0 < user.queues.length
        · simp [hl, hmode, hp, CloseAndDiscardQueued_some _ _ hlt] at h
          subst h
          exact ⟨addr, rfl, rfl, rfl, rfl, rfl, ⟨_, rfl⟩,
            Or.inr ⟨rfl, rfl, h0, rfl, hlt, rfl⟩⟩
        · have hnone : user.queues[h0]? = none := by
            simp at hlt; simp [hlt]
          simp [hl, hmode, hp, CloseAndDiscardQueued, hnone] at h

/-! ## Notifications -/

/-- C17, as stated, fails: in Split mode the create of address B fails in the
label bootstrap when the remote client is unreachable, and this failed handler
call has nevertheless appended an AddressCreated notification. -/
theorem notification_counterexample :
    handleCreateAddressEvent demoEnvDown demoSplit ⟨"B", .EventCreate, addrB⟩ =
      .err (.wrap "failed to sync labels to new address" (.external "network down"))
        demoSplitFailed ∧
    demoSplit.eventCh = [] ∧
    demoSplitFailed.eventCh = [.UserAddressCreated "U" "B" "b@example.org"] ∧
    demoSplitFailed.eventCh ≠ demoSplit.eventCh := by
  refine ⟨by decide, by decide, by decide, by decide⟩

/-- C17, amended: a user, address or label sub-event whose handler returns
success has appended exactly one notification to the notification stream; one
whose handler returns an error has appended none, except a Split-mode address
create that fails in its label bootstrap, which has already appended its
AddressCreated notification. -/
theorem notification_per_event (env : Env) (user user' : User) (sub : SubEvent)
    (hkind : ∀ m, sub ≠ .message m) :
    (applySubEvent env user sub = .ok user' → ∃ n, user'.eventCh = user.eventCh ++ [n]) ∧
    (∀ e, applySubEvent env user sub = .err e user' →
      user'.eventCh = user.eventCh ∨
        ∃ event uid, sub = .address event ∧ event.Action = .EventCreate ∧
          user.vault.AddressMode = .SplitMode ∧
          user'.eventCh = user.eventCh ++
            [.UserAddressCreated uid event.Address.ID event.Address.Email]) := by
  constructor
  · intro hok
    cases sub with
    | user ev =>
      simp only [applySubEvent, handleUserEvent, Result.ok.injEq] at hok
      subst hok
      exact ⟨_, rfl⟩
    | address ev =>
      simp only [applySubEvent] at hok
      cases hact : ev.Action <;> simp only [hact] at hok
      · obtain ⟨addr, -, -, -, -, -, ⟨uid, hev⟩, -⟩ := handleDeleteAddressEvent_ok hok
        exact ⟨_, hev⟩
      · obtain ⟨-, -, -, -, -, ⟨uid, hev⟩, -⟩ := handleCreateAddressEvent_ok hok
        exact ⟨_, hev⟩
      · obtain ⟨-, -, -, -, -, -, -, uid, hev⟩ := handleUpdateAddressEvent_ok hok
        exact ⟨_, hev⟩
      · obtain ⟨-, -, -, -, -, -, -, uid, hev⟩ := handleUpdateAddressEvent_ok hok
        exact ⟨_, hev⟩
    | label ev =>
      simp only [applySubEvent] at hok
      cases hact : ev.Action <;> simp only [hact] at hok
      · obtain ⟨label, -, -, -, -, -, -, -, -, uid, hev⟩ := handleDeleteLabelEvent_ok hok
        exact ⟨_, hev⟩
      · obtain ⟨-, -, -, -, -, -, -, -, uid, hev⟩ := handleCreateLabelEvent_ok hok
        exact ⟨_, hev⟩
      · obtain ⟨-, -, -, -, -, -, -, -, uid, hev⟩ := handleUpdateLabelEvent_ok hok
        exact ⟨_, hev⟩
      · obtain ⟨-, -, -, -, -, -, -, -, uid, hev⟩ := handleUpdateLabelEvent_ok hok
        exact ⟨_, hev⟩
    | message ev => exact absurd rfl (hkind ev)
  · intro e herr
    rcases applySubEvent_err herr with hsame | ⟨event, hsub, hact, hres⟩
    · exact Or.inl hsame.2.2.2.2.2
    · obtain ⟨hmode, -, -, -, -, -, -, uid, hev⟩ := hres
      exact Or.inr ⟨event, uid, hsub, hact, hmode, hev⟩

/-- Witness of C17, amended: the create of address B succeeds and pushes one
notification; the create of address A, which exists, fails and pushes none. -/
theorem notification_per_event_witness :
    (applySubEvent demoEnv demoCombined (.address ⟨"B", .EventCreate, addrB⟩) =
      .ok demoCombinedB ∧
      ∃ n, demoCombinedB.eventCh = demoCombined.eventCh ++ [n]) ∧
    (applySubEvent demoEnv demoCombined (.address ⟨"A", .EventCreate, addrA⟩) =
      .err (.wrap "failed to handle create address event"
        (.errorf "address %q already exists" "A")) demoCombined ∧
      (demoCombined.eventCh = demoCombined.eventCh ∨
        ∃ event uid, SubEvent.address ⟨"A", .EventCreate, addrA⟩ = .address event ∧
          event.Action = .EventCreate ∧ demoCombined.vault.AddressMode = .SplitMode ∧
          demoCombined.eventCh = demoCombined.eventCh ++
            [.UserAddressCreated uid event.Address.ID event.Address.Email])) :=
  ⟨⟨by decide,
      (notification_per_event demoEnv demoCombined demoCombinedB
        (.address ⟨"B", .EventCreate, addrB⟩) (fun m hm => by cases hm)).1 (by decide)⟩,
    ⟨by decide,
      (notification_per_event demoEnv demoCombined demoCombined
        (.address ⟨"A", .EventCreate, addrA⟩) (fun m hm => by cases hm)).2
        (.wrap "failed to handle create address event"
          (.errorf "address %q already exists" "A")) (by decide)⟩⟩

/-! ## The Combined-mode invariant -/

/-- C16 at the failing input: in Combined mode, with the primary address A
(position 1) registered against queue 0, the create of address Z (position 0)
succeeds; Z is now the primary address, its registry entry is the nil pointer,
the non-primary address A keeps queue 0, so the invariant that held before does
not hold afterwards; the next label event dereferences the nil pointer. -/
theorem combined_create_new_primary :
    demoCombined.vault.AddressMode = .CombinedMode ∧ demoCombined.combinedShared ∧
    handleCreateAddressEvent demoEnv demoCombined ⟨"Z", .EventCreate, addrZ⟩ =
      .ok demoCombinedZ ∧
    (getAddrIdx demoCombinedZ.apiAddrs 0).toOption = some addrZ ∧
    demoCombinedZ.updateCh.lookup "Z" = some none ∧
    demoCombinedZ.updateCh.lookup "A" = some (some 0) ∧
    ¬ demoCombinedZ.combinedShared ∧
    handleCreateLabelEvent demoEnv demoCombinedZ ⟨"M", .EventCreate, labelOther⟩ = .panic := by
  refine ⟨by decide, by decide, by decide, by decide, by decide, by decide, by decide,
    by decide⟩

/-! ## The registry invariant -/

theorem getAddrIdx_zero_mem_le (apiAddrs : GoMap liteapi.Address) (primAddr : liteapi.Address)
    (h : getAddrIdx apiAddrs 0 = .ok primAddr) :
    primAddr ∈ apiAddrs.values ∧ ∀ a ∈ apiAddrs.values, primAddr.Order ≤ a.Order := by
  haveI : IsTotal liteapi.Address (fun a b => a.Order ≤ b.Order) := ⟨fun a b => le_total _ _⟩
  haveI : IsTrans liteapi.Address (fun a b => a.Order ≤ b.Order) :=
    ⟨fun a b c hab hbc => le_trans hab hbc⟩
  have hperm := List.perm_insertionSort (fun a b : liteapi.Address => a.Order ≤ b.Order)
    apiAddrs.values
  have hsorted := List.sorted_insertionSort (fun a b : liteapi.Address => a.Order ≤ b.Order)
    apiAddrs.values
  unfold getAddrIdx at h
  generalize List.insertionSort (fun a b : liteapi.Address => a.Order ≤ b.Order)
    apiAddrs.values = sorted at hperm hsorted h
  cases sorted with
  | nil => simp at h
  | cons x tl =>
    simp at h
    subst h
    refine ⟨hperm.mem_iff.mp (List.mem_cons_self _ _), fun a ha => ?_⟩
    rcases List.mem_cons.mp (hperm.mem_iff.mpr ha) with rfl | hat
    · exact le_refl _
    · exact List.rel_of_sorted_cons hsorted a hat

theorem index_insert_self {V : Type} (m : GoMap V) (k : String) (v zero : V) :
    GoMap.index (m.insert k v) k zero = v := by
  simp [GoMap.index, AList.lookup_insert]

theorem index_insert_ne {V : Type} (m : GoMap V) (k k' : String) (v zero : V) (h : k' ≠ k) :
    GoMap.index (m.insert k v) k' zero = m.index k' zero := by
  simp [GoMap.index, AList.lookup_insert_ne h]

theorem index_erase_ne {V : Type} (m : GoMap V) (k k' : String) (zero : V) (h : k' ≠ k) :
    GoMap.index (m.erase k) k' zero = m.index k' zero := by
  simp [GoMap.index, AList.lookup_erase_ne h]

theorem mem_keys_insert {V : Type} (m : GoMap V) (k k' : String) (v : V)
    (h : k' ∈ (m.insert k v).keys) : k' = k ∨ k' ∈ m.keys := by
  have h' : k' ∈ m.insert k v := AList.mem_keys.mpr h
  rcases (AList.mem_insert m).mp h' with h1 | h1
  · exact Or.inl h1
  · exact Or.inr (AList.mem_keys.mp h1)

theorem mem_keys_erase {V : Type} (m : GoMap V) (k k' : String)
    (h : k' ∈ (m.erase k).keys) : k' ≠ k ∧ k' ∈ m.keys := by
  have h' : k' ∈ m.erase k := AList.mem_keys.mpr h
  have h1 := AList.mem_erase.mp h'
  exact ⟨h1.1, AList.mem_keys.mp h1.2⟩

theorem key_of_mem_values (user : User) (hkeyed : user.keyed) (a : liteapi.Address)
    (ha : a ∈ user.apiAddrs.values) : a.ID ∈ user.apiAddrs.keys := by
  obtain ⟨e, he, rfl⟩ := List.mem_map.mp ha
  rw [hkeyed e he]
  exact List.mem_map.mpr ⟨e, he, rfl⟩

theorem keyed_insert (user : User) (hkeyed : user.keyed) (addr : liteapi.Address) :
    ∀ e ∈ (user.apiAddrs.insert addr.ID addr).entries, e.2.ID = e.1 := by
  intro e he
  rw [AList.insert_entries] at he
  rcases List.mem_cons.mp he with rfl | he
  · rfl
  · exact hkeyed e ((List.kerase_sublist _ _).subset he)

theorem keyed_erase (user : User) (hkeyed : user.keyed) (k : String) :
    ∀ e ∈ (user.apiAddrs.erase k).entries, e.2.ID = e.1 := by
  intro e he
  exact hkeyed e ((List.kerase_sublist _ _).subset he)

theorem usable_of_map_closed {qs qs' : List QueuedChannel}
    (h : ∀ i : Nat, (qs'[i]?).map (fun q : QueuedChannel => q.closed) =
      (qs[i]?).map fun q : QueuedChannel => q.closed) (p : Ptr) :
    usable qs' p = usable qs p := by
  cases p with
  | none => rfl
  | some i =>
    have hi := h i
    simp only [usable]
    rcases h1 : qs'[i]? with _ | q1 <;> rcases h2 : qs[i]? with _ | q2 <;>
      simp [h1, h2] at hi ⊢
    exact hi

theorem EnqueueN_closed (q : QueuedChannel) (x : imap.Update) (n : Nat) :
    (q.EnqueueN x n).closed = q.closed := by
  unfold QueuedChannel.EnqueueN
  split <;> simp_all

theorem usable_Enqueue {qs qs' : List QueuedChannel} {p0 : Ptr} {x : imap.Update}
    (hE : Enqueue qs p0 x = some qs') (p : Ptr) : usable qs' p = usable qs p := by
  apply usable_of_map_closed
  intro i
  rw [(Enqueue_getElem? hE).2.2 i]
  cases qs[i]? with
  | none => rfl
  | some q =>
    by_cases hp : p0 = some i <;> simp [hp, Enqueue_closed]

theorem usable_rangeEnqueue {qs qs' : List QueuedChannel} {ps : List Ptr} {x : imap.Update}
    (hr : rangeEnqueue x qs ps = some qs') (p : Ptr) : usable qs' p = usable qs p := by
  apply usable_of_map_closed
  intro i
  rw [(rangeEnqueue_getElem? x ps qs qs' hr).2.2 i]
  cases qs[i]? <;> simp [EnqueueN_closed]

theorem usable_append {qs : List QueuedChannel} {p : Ptr} (q : QueuedChannel)
    (h : usable qs p = true) : usable (qs ++ [q]) p = true := by
  obtain ⟨i, q0, rfl, hq, hopen⟩ := usable_iff.mp h
  have hlt : i < qs.length := (List.getElem?_eq_some.mp hq).1
  exact usable_iff.mpr ⟨i, q0, rfl, by rw [List.getElem?_append_left hlt]; exact hq, hopen⟩

theorem usable_set_ne {qs : List QueuedChannel} {p : Ptr} (h0 : Nat) (q : QueuedChannel)
    (h : usable qs p = true) (hne : p ≠ some h0) : usable (qs.set h0 q) p = true := by
  obtain ⟨i, q0, rfl, hq, hopen⟩ := usable_iff.mp h
  have hi : h0 ≠ i := fun e => hne (by rw [e])
  exact usable_iff.mpr ⟨i, q0, rfl, by rw [List.getElem?_set_ne hi]; exact hq, hopen⟩

theorem registered_of_same_tables {user user' : User} (hinv : user.addressesRegistered)
    (hkeyed : user.keyed) (ha : user'.apiAddrs = user.apiAddrs)
    (hr : user'.updateCh = user.updateCh)
    (hq : ∀ p, usable user.queues p = true → usable user'.queues p = true) :
    user'.addressesRegistered ∧ user'.keyed := by
  constructor
  · intro k hk
    rw [ha] at hk
    rw [hr]
    exact hq _ (hinv k hk)
  · intro e he
    rw [ha] at he
    exact hkeyed e he

theorem handleCreateMessageEvent_ok {env : Env} {user user' : User}
    {event : liteapi.MessageEvent} (h : handleCreateMessageEvent env user event = .ok user') :
    user'.apiAddrs = user.apiAddrs ∧ user'.updateCh = user.updateCh ∧
      ∃ p x, Enqueue user.queues p x = some user'.queues := by
  unfold handleCreateMessageEvent withAddrKR at h
  rcases hf : env.GetFullMessage user.remoteCalls event.Message.ID with err | full
  · simp [hf] at h
  · simp only [hf] at h
    split at h
    · simp at h
    · split at h
      · simp at h
      · rename_i update _
        rcases hE : Enqueue user.queues (user.updateCh.index full.AddressID none)
          (.MessagesCreated update) with _ | qs
        · simp [hE] at h
        · simp [hE] at h
          subst h
          exact ⟨rfl, rfl, _, _, hE⟩

theorem handleUpdateMessageEvent_ok {env : Env} {user user' : User}
    {event : liteapi.MessageEvent} (h : handleUpdateMessageEvent env user event = .ok user') :
    user'.apiAddrs = user.apiAddrs ∧ user'.updateCh = user.updateCh ∧
      ∃ p x, Enqueue user.queues p x = some user'.queues := by
  simp only [handleUpdateMessageEvent] at h
  split at h
  · simp at h
  · rename_i qs hE
    simp at h
    subst h
    exact ⟨rfl, rfl, _, _, hE⟩

theorem registered_create {env : Env} {user user' : User} {event : liteapi.AddressEvent}
    (hinv : user.addressesRegistered) (hkeyed : user.keyed)
    (habove : user.vault.AddressMode = .CombinedMode → abovePrimary user event)
    (hok : handleCreateAddressEvent env user event = .ok user') :
    user'.addressesRegistered ∧ user'.keyed := by
  obtain ⟨hnew, haddr, -, -, -, -, hmode⟩ := handleCreateAddressEvent_ok hok
  refine ⟨?_, ?_⟩
  · intro k hk
    rw [haddr] at hk
    rcases hmode with ⟨hm, hq, primAddr, hprim, hreg⟩ | ⟨hm, hreg, labels, hq⟩
    · -- Combined mode: the new entry is a copy of the entry of the primary address
      obtain ⟨hmem, hle⟩ := getAddrIdx_zero_mem_le _ _ hprim
      rw [values_insert_of_not_mem _ _ _ hnew] at hmem hle
      obtain ⟨a, ha, hlt⟩ := habove hm
      have hold : primAddr ∈ user.apiAddrs.values := by
        rcases List.mem_cons.mp hmem with rfl | h1
        · have := hle a (List.mem_cons_of_mem _ ha)
          omega
        · exact h1
      have hprimUsable := hinv _ (key_of_mem_values user hkeyed primAddr hold)
      rw [hreg, hq]
      rcases mem_keys_insert _ _ _ _ hk with rfl | hk'
      · rw [index_insert_self]; exact hprimUsable
      · have hne : k ≠ event.Address.ID := fun e => hnew (AList.mem_keys.mpr (e ▸ hk'))
        rw [index_insert_ne _ _ _ _ _ hne]; exact hinv k hk'
    · -- Split mode: the new entry is the newly allocated queue
      rw [hreg, hq]
      rcases mem_keys_insert _ _ _ _ hk with rfl | hk'
      · rw [index_insert_self]
        exact usable_iff.mpr ⟨_, ⟨bootstrapUpdates labels, false⟩, rfl, by simp, rfl⟩
      · have hne : k ≠ event.Address.ID := fun e => hnew (AList.mem_keys.mpr (e ▸ hk'))
        rw [index_insert_ne _ _ _ _ _ hne]
        exact usable_append _ (hinv k hk')
  · intro e he
    rw [haddr] at he
    exact keyed_insert user hkeyed event.Address e he

theorem registered_update {env : Env} {user user' : User} {event : liteapi.AddressEvent}
    (hinv : user.addressesRegistered) (hkeyed : user.keyed)
    (hok : handleUpdateAddressEvent env user event = .ok user') :
    user'.addressesRegistered ∧ user'.keyed := by
  obtain ⟨hmem, haddr, hreg, hq, -⟩ := handleUpdateAddressEvent_ok hok
  refine ⟨?_, ?_⟩
  · intro k hk
    rw [haddr] at hk
    rw [hreg, hq]
    rcases mem_keys_insert _ _ _ _ hk with rfl | hk'
    · exact hinv _ (AList.mem_keys.mp hmem)
    · exact hinv k hk'
  · intro e he
    rw [haddr] at he
    exact keyed_insert user hkeyed event.Address e he

theorem registered_delete {env : Env} {user user' : User} {event : liteapi.AddressEvent}
    (hinv : user.addressesRegistered) (hkeyed : user.keyed)
    (hown : user.vault.AddressMode = .SplitMode → ownQueue user event.ID)
    (hok : handleDeleteAddressEvent env user event = .ok user') :
    user'.addressesRegistered ∧ user'.keyed := by
  obtain ⟨addr, -, haddr, -, -, -, -, hmode⟩ := handleDeleteAddressEvent_ok hok
  refine ⟨?_, ?_⟩
  · intro k hk
    rw [haddr] at hk
    obtain ⟨hne, hk'⟩ := mem_keys_erase _ _ _ hk
    rcases hmode with ⟨-, hreg, hq⟩ | ⟨hm, hreg, h0, hp, -, hq⟩
    · rw [hreg, hq]; exact hinv k hk'
    · rw [hreg, hq, index_erase_ne _ _ _ _ hne]
      refine usable_set_ne h0 _ (hinv k hk') ?_
      rw [← hp]
      exact hown hm k hk' hne
  · intro e he
    rw [haddr] at he
    exact keyed_erase user hkeyed event.ID e he

/-- C15, as stated, fails: in Split mode, with the addresses A and B of the
table registered against the same usable queue 0, the predicate holds; the
delete of address B succeeds and closes queue 0, so the registry entry of
address A, still in the table, is no longer a usable queue. -/
theorem addressesRegistered_counterexample :
    demoSharedSplit.addressesRegistered ∧ demoSharedSplit.keyed ∧
    ∃ user', applySubEvent demoEnv demoSharedSplit (.address ⟨"B", .EventDelete, .zero⟩) =
        .ok user' ∧
      "A" ∈ user'.apiAddrs.keys ∧ user'.updateCh.lookup "A" = some (some 0) ∧
      user'.queues[0]? = some ⟨[], true⟩ ∧ ¬ user'.addressesRegistered := by
  refine ⟨by decide, by decide, _, rfl, by decide, by decide, by decide, by decide⟩

/-- C15, amended: for a state whose address table is keyed by the identifiers
of its addresses, the predicate "every address identifier of the address table
has an entry in the queue registry, and that entry is a usable queue" is
preserved by every successfully handled user, address, label or message
sub-event, provided that a Split-mode address delete finds no other address of
the table registered against the queue of the deleted address, and that a
Combined-mode address create adds an address whose ordering position is higher
than that of some address of the table (the create of an address that becomes
the primary address is left out). -/
theorem addressesRegistered_preserved (env : Env) (user user' : User) (sub : SubEvent)
    (hinv : user.addressesRegistered) (hkeyed : user.keyed)
    (hcreate : ∀ event, sub = .address event → event.Action = .EventCreate →
      user.vault.AddressMode = .CombinedMode → abovePrimary user event)
    (hdelete : ∀ event, sub = .address event → event.Action = .EventDelete →
      user.vault.AddressMode = .SplitMode → ownQueue user event.ID)
    (hok : applySubEvent env user sub = .ok user') :
    user'.addressesRegistered ∧ user'.keyed := by
  cases sub with
  | user ev =>
    simp only [applySubEvent, handleUserEvent, Result.ok.injEq] at hok
    subst hok
    exact registered_of_same_tables hinv hkeyed rfl rfl fun p hp => hp
  | address ev =>
    simp only [applySubEvent] at hok
    cases hact : ev.Action <;> simp only [hact] at hok
    · exact registered_delete hinv hkeyed (hdelete ev rfl hact) hok
    · exact registered_create hinv hkeyed (hcreate ev rfl hact) hok
    · exact registered_update hinv hkeyed hok
    · exact registered_update hinv hkeyed hok
  | label ev =>
    simp only [applySubEvent] at hok
    cases hact : ev.Action <;> simp only [hact] at hok
    · obtain ⟨label, -, hr, hreg, -, haddr, -⟩ := handleDeleteLabelEvent_ok hok
      exact registered_of_same_tables hinv hkeyed haddr hreg
        fun p hp => (usable_rangeEnqueue hr p).trans hp
    · obtain ⟨-, hr, hreg, -, haddr, -⟩ := handleCreateLabelEvent_ok hok
      exact registered_of_same_tables hinv hkeyed haddr hreg
        fun p hp => (usable_rangeEnqueue hr p).trans hp
    · obtain ⟨-, hr, hreg, -, haddr, -⟩ := handleUpdateLabelEvent_ok hok
      exact registered_of_same_tables hinv hkeyed haddr hreg
        fun p hp => (usable_rangeEnqueue hr p).trans hp
    · obtain ⟨-, hr, hreg, -, haddr, -⟩ := handleUpdateLabelEvent_ok hok
      exact registered_of_same_tables hinv hkeyed haddr hreg
        fun p hp => (usable_rangeEnqueue hr p).trans hp
  | message ev =>
    simp only [applySubEvent] at hok
    cases hact : ev.Action <;> simp only [hact] at hok
    · obtain ⟨hr, hreg, -, haddr, -⟩ := handleDeleteMessageEvent_ok hok
      exact registered_of_same_tables hinv hkeyed haddr hreg
        fun p hp => (usable_rangeEnqueue hr p).trans hp
    · obtain ⟨haddr, hreg, p0, x, hE⟩ := handleCreateMessageEvent_ok hok
      exact registered_of_same_tables hinv hkeyed haddr hreg
        fun p hp => (usable_Enqueue hE p).trans hp
    · obtain ⟨haddr, hreg, p0, x, hE⟩ := handleUpdateMessageEvent_ok hok
      exact registered_of_same_tables hinv hkeyed haddr hreg
        fun p hp => (usable_Enqueue hE p).trans hp
    · obtain ⟨haddr, hreg, p0, x, hE⟩ := handleUpdateMessageEvent_ok hok
      exact registered_of_same_tables hinv hkeyed haddr hreg
        fun p hp => (usable_Enqueue hE p).trans hp

/-- Witness of C15, amended: the create of address B above the primary address A
in Combined mode, and the delete of address B, which has its own queue, in Split
mode. -/
theorem addressesRegistered_preserved_witness :
    demoCombined.addressesRegistered ∧ demoCombined.keyed ∧
    abovePrimary demoCombined ⟨"B", .EventCreate, addrB⟩ ∧
    applySubEvent demoEnv demoCombined (.address ⟨"B", .EventCreate, addrB⟩) =
      .ok demoCombinedB ∧
    (demoCombinedB.addressesRegistered ∧ demoCombinedB.keyed) ∧
    demoTwoQueues.addressesRegistered ∧ demoTwoQueues.keyed ∧ ownQueue demoTwoQueues "B" ∧
    ∃ user', applySubEvent demoEnv demoTwoQueues (.address ⟨"B", .EventDelete, .zero⟩) =
        .ok user' ∧
      user'.addressesRegistered ∧ user'.keyed :=
  ⟨by decide, by decide, ⟨addrA, by decide, by decide⟩, by decide,
    addressesRegistered_preserved demoEnv demoCombined demoCombinedB
      (.address ⟨"B", .EventCreate, addrB⟩) (by decide) (by decide)
      (fun event he _ _ => by cases he; exact ⟨addrA, by decide, by decide⟩)
      (fun event he hact _ => by cases he; cases hact) (by decide),
    by decide, by decide, by decide,
    _, rfl,
    addressesRegistered_preserved demoEnv demoTwoQueues _
      (.address ⟨"B", .EventDelete, .zero⟩) (by decide) (by decide)
      (fun event he hact _ => by cases he; cases hact)
      (fun event he _ _ => by cases he; decide) rfl⟩

/-! ## The Combined-mode invariant away from the failing case -/

theorem toOption_eq_ok {primAddr : liteapi.Address} {r : Except Error liteapi.Address}
    (h : primAddr ∈ r.toOption) : r = .ok primAddr := by
  cases r with
  | error e => simp [Except.toOption] at h
  | ok a =>
    simp [Except.toOption] at h
    rw [h]

theorem combinedShared_all {user : User} (hinv : user.combinedShared) :
    ∀ a ∈ user.apiAddrs.values, ∀ b ∈ user.apiAddrs.values,
      user.updateCh.index a.ID none = user.updateCh.index b.ID none := by
  intro a ha b hb
  have hne : user.apiAddrs.values ≠ [] := List.ne_nil_of_mem ha
  obtain ⟨primAddr, hprim⟩ := getAddrIdx_zero_isOk _ hne
  have hmem : primAddr ∈ (getAddrIdx user.apiAddrs 0).toOption := by
    rw [hprim]; simp [Except.toOption]
  have key : ∀ c ∈ user.apiAddrs.values,
      user.updateCh.index c.ID none = user.updateCh.index primAddr.ID none := by
    intro c hc
    by_cases hcp : c = primAddr
    · rw [hcp]
    · exact hinv primAddr hmem c hc hcp
  rw [key a ha, key b hb]

theorem combinedShared_of_all {user : User}
    (h : ∀ a ∈ user.apiAddrs.values, ∀ b ∈ user.apiAddrs.values,
      user.updateCh.index a.ID none = user.updateCh.index b.ID none) :
    user.combinedShared := by
  intro primAddr hprim a ha _
  exact h a ha primAddr (getAddrIdx_zero_mem_le _ _ (toOption_eq_ok hprim)).1

theorem mem_values_insert {V : Type} (m : GoMap V) (k : String) (v a : V)
    (h : a ∈ GoMap.values (m.insert k v)) : a = v ∨ a ∈ m.values := by
  unfold GoMap.values at h
  rw [AList.insert_entries] at h
  rcases List.mem_cons.mp h with h1 | h1
  · exact Or.inl h1
  · obtain ⟨e, he, rfl⟩ := List.mem_map.mp h1
    exact Or.inr (List.mem_map.mpr ⟨e, (List.kerase_sublist _ _).subset he, rfl⟩)

theorem mem_values_erase {V : Type} (m : GoMap V) (k : String) (a : V)
    (h : a ∈ GoMap.values (m.erase k)) : a ∈ m.values := by
  obtain ⟨e, he, rfl⟩ := List.mem_map.mp h
  exact List.mem_map.mpr ⟨e, (List.kerase_sublist _ _).subset he, rfl⟩

/-- In Combined mode, on a table keyed by the identifiers of its addresses, the
predicate `combinedShared` is preserved by every successfully handled address
update, address delete, and address create whose address has a higher ordering
position than some address of the table; only the create of an address that
becomes the primary address is excluded. -/
theorem combinedShared_preserved (env : Env) (user user' : User)
    (event : liteapi.AddressEvent) (hmode : user.vault.AddressMode = .CombinedMode)
    (hinv : user.combinedShared) (hkeyed : user.keyed)
    (hcreate : event.Action = .EventCreate → abovePrimary user event)
    (hok : applySubEvent env user (.address event) = .ok user') : user'.combinedShared := by
  have hall := combinedShared_all hinv
  apply combinedShared_of_all
  simp only [applySubEvent] at hok
  cases hact : event.Action <;> simp only [hact] at hok
  · -- delete
    obtain ⟨addr, -, haddr, -, -, -, -, hm⟩ := handleDeleteAddressEvent_ok hok
    rcases hm with ⟨-, hreg, -⟩ | ⟨hm, -⟩
    · intro a ha b hb
      rw [haddr] at ha hb
      rw [hreg]
      exact hall a (mem_values_erase _ _ _ ha) b (mem_values_erase _ _ _ hb)
    · rw [hmode] at hm; cases hm
  · -- create
    obtain ⟨hnew, haddr, -, -, -, -, hm⟩ := handleCreateAddressEvent_ok hok
    rcases hm with ⟨-, -, primAddr, hprim, hreg⟩ | ⟨hm, -⟩
    · obtain ⟨hmem, hle⟩ := getAddrIdx_zero_mem_le _ _ hprim
      rw [values_insert_of_not_mem _ _ _ hnew] at hmem hle
      obtain ⟨c, hc, hlt⟩ := hcreate hact
      have hold : primAddr ∈ user.apiAddrs.values := by
        rcases List.mem_cons.mp hmem with rfl | h1
        · have := hle c (List.mem_cons_of_mem _ hc)
          omega
        · exact h1
      have key : ∀ a ∈ user'.apiAddrs.values,
          user'.updateCh.index a.ID none = user.updateCh.index primAddr.ID none := by
        intro a ha
        rw [haddr] at ha
        rw [hreg]
        by_cases hid : a.ID = event.Address.ID
        · rw [hid, index_insert_self]
        · rw [index_insert_ne _ _ _ _ _ hid]
          rcases mem_values_insert _ _ _ _ ha with rfl | h1
          · exact absurd rfl hid
          · exact hall a h1 primAddr hold
      intro a ha b hb
      rw [key a ha, key b hb]
    · rw [hmode] at hm; cases hm
  · -- update
    obtain ⟨hmem, haddr, hreg, -⟩ := handleUpdateAddressEvent_ok hok
    obtain ⟨old, hold⟩ := Option.isSome_iff_exists.mp (AList.lookup_isSome.mpr hmem)
    have holdv : old ∈ user.apiAddrs.values := mem_values_of_lookup hold
    have holdid : old.ID = event.Address.ID :=
      hkeyed ⟨event.Address.ID, old⟩ (AList.mem_lookup_iff.mp hold)
    have key : ∀ a ∈ user'.apiAddrs.values,
        user'.updateCh.index a.ID none = user.updateCh.index old.ID none := by
      intro a ha
      rw [haddr] at ha
      rw [hreg]
      rcases mem_values_insert _ _ _ _ ha with rfl | h1
      · rw [holdid]
      · exact hall a h1 old holdv
    intro a ha b hb
    rw [key a ha, key b hb]
  · -- update flags
    obtain ⟨hmem, haddr, hreg, -⟩ := handleUpdateAddressEvent_ok hok
    obtain ⟨old, hold⟩ := Option.isSome_iff_exists.mp (AList.lookup_isSome.mpr hmem)
    have holdv : old ∈ user.apiAddrs.values := mem_values_of_lookup hold
    have holdid : old.ID = event.Address.ID :=
      hkeyed ⟨event.Address.ID, old⟩ (AList.mem_lookup_iff.mp hold)
    have key : ∀ a ∈ user'.apiAddrs.values,
        user'.updateCh.index a.ID none = user.updateCh.index old.ID none := by
      intro a ha
      rw [haddr] at ha
      rw [hreg]
      rcases mem_values_insert _ _ _ _ ha with rfl | h1
      · rw [holdid]
      · exact hall a h1 old holdv
    intro a ha b hb
    rw [key a ha, key b hb]

end bridge
